import Mathlib

/-!
# eventing-kafka scheduler: even-spread score plugin and statefulset autoscaler

A shallow embedding of

* `pkg/common/scheduler/plugins/core/removewithevenpodspreadpriority/remove_with_even_pod_spread_priority.go`
  (`RemoveWithEvenPodSpreadPriority.Score`), and
* `pkg/common/scheduler/statefulset/autoscaler.go`
  (`doautoscale`, `mayCompact`, `compact`, `contains`, and the trigger channel
  of `Start` and `Autoscale`),

followed by theorems about them.

Conventions.  Go `int32` values are Lean `Int`s and every `int32` operation is
followed by `wrap32` (two's complement reduction); `uint64` values are `Nat`s
reduced modulo `2^64`.  Logging is omitted.  Calls to external collaborators
(scale API, VPod lister, evictor) are recorded in a trace of `Event`s.
-/

namespace EventingKafka

/-! ## Machine integers -/

/-- Largest `int32`. -/
def MaxInt32 : Int := 2147483647

/-- Smallest `int32`. -/
def MinInt32 : Int := -2147483648

/-- Go `math.MaxUint64`. -/
def MaxUint64 : Nat := 18446744073709551615

/-- Membership in the `int32` range. -/
def isInt32 (x : Int) : Prop := MinInt32 ≤ x ∧ x ≤ MaxInt32

instance (x : Int) : Decidable (isInt32 x) := by
  unfold isInt32; exact inferInstance

/-- Two's complement reduction of an integer to the `int32` range: the value
an `int32` operation yields when its mathematical result is `x`. -/
def wrap32 (x : Int) : Int := (x + 2147483648) % 4294967296 - 2147483648

/-- Go conversion `uint64(x)` of an `int32` value `x` (sign extension). -/
def uint64OfInt32 (x : Int) : Nat := (x % 18446744073709551616).toNat

/-- Addition of two `uint64` values. -/
def addUint64 (x y : Nat) : Nat := (x + y) % 18446744073709551616

/-! ## Data model (package `state`, `scheduler`, `types`) -/

/-- The type `types.NamespacedName`: the key of a VPod. -/
structure NamespacedName where
  Namespace : String
  Name : String
  deriving DecidableEq, Repr

/-- Outcome tag of a `state.Status`. -/
inductive Code where
  | Success
  | Unschedulable
  | Error
  deriving DecidableEq, Repr

/-- The type `state.Status`: an outcome tag and its reasons. -/
structure Status where
  code : Code
  reasons : List String
  deriving DecidableEq, Repr

/-- The constructor `state.NewStatus(code, reasons...)`. -/
def NewStatus (code : Code) (reasons : List String) : Status := ⟨code, reasons⟩

/-- The type `scheduler.SchedulerPolicyType`; the source only names `MAXFILLUP`. -/
inductive SchedulerPolicyType where
  | MAXFILLUP
  | other (tag : String)
  deriving DecidableEq, Repr

/-- The type `scheduler.PriorityPolicy`; the source only reads `Name`. -/
structure PriorityPolicy where
  Name : String
  deriving DecidableEq, Repr

/-- The type `scheduler.SchedulerPolicy`; the source only reads `Priorities`. -/
structure SchedulerPolicy where
  Priorities : List PriorityPolicy
  deriving DecidableEq, Repr

/-- The snapshot `state.State`, with the fields the two source files read.
`FreeCap` is the per-ordinal free-capacity table and `PodSpread` the nested
map `VPod key -> pod name -> count`; a Go map read yields the zero value for
an absent key, so both are total functions here.  `SchedPolicy` is a pointer
in Go, `none` standing for `nil`. -/
structure State where
  FreeCap : Int → Int
  LastOrdinal : Int
  Capacity : Int
  NumZones : Int
  NumNodes : Int
  SchedPolicy : Option SchedulerPolicy
  SchedulerPolicy : SchedulerPolicyType
  StatefulSetName : String
  PodSpread : NamespacedName → String → Int

/-- Modelled from the spec: `state.PodNameFromOrdinal`, whose source is not in
this tree.  The spec gives the derived name `<statefulset-name>-<ordinal>`. -/
def PodNameFromOrdinal (name : String) (ordinal : Int) : String :=
  name ++ "-" ++ toString ordinal

/-! ## The even-spread score plugin -/

/-- The constant `ErrReasonInvalidArg`. -/
def ErrReasonInvalidArg : String := "invalid arguments"

/-- The dynamic value passed as `args interface{}`: a string, or a value of
any other type. -/
inductive Args where
  | str (s : String)
  | notString
  deriving DecidableEq, Repr

/-- The skew of lines 78-80: `skew = (currentReps - 1) - otherReps`, negated
when negative; every operation is an `int32` operation. -/
def skewOf (currentReps otherReps : Int) : Int :=
  let skew := wrap32 (wrap32 (currentReps - 1) - otherReps)
  if skew < 0 then wrap32 (skew * (-1)) else skew

/-- The loop of lines 75-88, started at `otherPodID` with the accumulated
`score`.  The Go loop has no bound of its own (`otherPodID++` wraps around at
`MaxInt32`), so the model counts iterations down from `fuel` and yields `none`
when they run out. -/
def scoreLoop (states : State) (key : NamespacedName) (podID currentReps : Int) :
    Nat → Int → Nat → Option Nat
  | 0, _, _ => none
  | fuel + 1, otherPodID, score =>
    if otherPodID ≤ states.LastOrdinal then
      if otherPodID ≠ podID then
        let otherReps := states.PodSpread key (PodNameFromOrdinal states.StatefulSetName otherPodID)
        let skew := skewOf currentReps otherReps
        scoreLoop states key podID currentReps fuel (wrap32 (otherPodID + 1))
          (addUint64 score (uint64OfInt32 skew))
      else
        scoreLoop states key podID currentReps fuel (wrap32 (otherPodID + 1)) score
    else some score

/-- The method `RemoveWithEvenPodSpreadPriority.Score`.  `decode` is the strict
JSON decoding of the argument string into `state.EvenPodSpreadArgs` (library
code): `some maxSkew` on success, `none` on a decode error.  `MaxSkew` is only
compared against in a log statement.  The result is `none` when the loop does
not finish within `fuel` iterations. -/
def Score (decode : String → Option Int) (fuel : Nat) (args : Args) (states : State)
    (key : NamespacedName) (podID : Int) : Option (Nat × Status) :=
  match args with
  | Args.notString => some (0, NewStatus Code.Unschedulable [ErrReasonInvalidArg])
  | Args.str spreadArgs =>
    match decode spreadArgs with
    | none => some (0, NewStatus Code.Unschedulable [ErrReasonInvalidArg])
    | some _ =>
      if 0 ≤ states.LastOrdinal then
        let currentReps := states.PodSpread key (PodNameFromOrdinal states.StatefulSetName podID)
        match scoreLoop states key podID currentReps fuel 0 0 with
        | none => none
        | some score => some (MaxUint64 - score, NewStatus Code.Success [])
      else some (0, NewStatus Code.Success [])

/-! ## The autoscaler -/

/-- An error value. -/
abbrev Err := String

/-- The type `Placement`: a pod name and the virtual replicas placed on it. -/
structure Placement where
  PodName : String
  VReplicas : Int
  deriving DecidableEq, Repr

/-- The interface `scheduler.VPod`, as the values its getters return. -/
structure VPod where
  key : NamespacedName
  vreplicas : Int
  placements : List Placement
  deriving DecidableEq, Repr

/-- One observable step of a pass: a call of `UpdateScale`, of the VPod lister
or of the evictor; `mayCompact` marks the entry into `mayCompact`. -/
inductive Event where
  | updateScale (replicas : Int)
  | mayCompact
  | listVPods
  | evict (vpod : VPod) (placement : Placement)
  deriving DecidableEq, Repr

/-- Declarations the autoscaler uses whose source is not in this tree, taken as
parameters: the priority names `st.AvailabilityZonePriority` and
`st.AvailabilityNodePriority`, the function `st.OrdinalFromPodName`, and the
`int32` a `float64` to `int32` conversion yields when the language leaves
the result to the implementation (NaN, infinities, values out of range). -/
structure Deps where
  AvailabilityZonePriority : String
  AvailabilityNodePriority : String
  OrdinalFromPodName : String → Int
  convUndefined : Int

/-- The struct `autoscaler`, its collaborators given by their responses during
one pass: `stateAccessor` is the result of `a.stateAccessor.State(nil)`,
`getScale` the `Spec.Replicas` read by `GetScale` (or its error), `updateScale`
the error result of `UpdateScale` for a replica count, `vpodLister` the result
of `a.vpodLister()`, and `evictor` the error result of `a.evictor(vpod,
&placement)` given the trace of the compaction so far. -/
structure autoscaler where
  stateAccessor : Except Err State
  getScale : Except Err Int
  updateScale : Int → Option Err
  vpodLister : Except Err (List VPod)
  evictor : List Event → VPod → Placement → Option Err
  capacity : Int

/-- Modelled from the spec: `State.Free`, whose source is not in this tree.
The spec gives `FreeCap[ordinal]`, the remaining capacity of the pod. -/
def Free (s : State) (ordinal : Int) : Int := s.FreeCap ordinal

/-- Modelled from the spec: `State.FreeCapacity`, whose source is not in this
tree.  The spec gives the sum of `FreeCap[pod]` over the existing pods, the
ordinals `0 .. LastOrdinal`; the result is an `int32`. -/
def FreeCapacity (s : State) : Int :=
  wrap32 ((List.range (s.LastOrdinal + 1).toNat).map (fun (i : Nat) => s.FreeCap (i : Int))).sum

/-- The function `contains` (lines 236-244). -/
def contains : List PriorityPolicy → String → Bool
  | [], _ => false
  | v :: priors, name => if v.Name = name then true else contains priors name

/-- The condition `state.SchedPolicy != nil && contains(state.SchedPolicy.Priorities, name)`. -/
def hasPriority (state : State) (name : String) : Bool :=
  match state.SchedPolicy with
  | none => false
  | some policy => contains policy.Priorities name

/-- Lines 128-135 of `doautoscale`: the scale-up factor. -/
def scaleUpFactor (d : Deps) (state : State) : Int :=
  if hasPriority state d.AvailabilityZonePriority then state.NumZones
  else if hasPriority state d.AvailabilityNodePriority then state.NumNodes
  else 1

/-- The ceiling of the quotient `a / b` for `b ≠ 0`. -/
def ceilDiv (a b : Int) : Int := -(Int.fdiv (-a) b)

/-- Lines 142-143 of `doautoscale`:
`int32(math.Ceil(math.Ceil(float64(pending) / float64(capacity)) / float64(scaleUpFactor)) * float64(scaleUpFactor))`.
For `int32` operands both `float64` quotients are correctly rounded values
whose ceiling is the ceiling of the exact quotient (a non-integral quotient of
two `int32`s is further from an integer than the rounding error), and the
product of the two integers is exact whenever it is an `int32`.  With a zero
divisor the `float64` value is infinite or NaN, and with a product outside
`int32` the conversion is out of range: the result is implementation-dependent. -/
def scaleUpIncrement (d : Deps) (pending capacity scaleUpFactor : Int) : Int :=
  if capacity = 0 ∨ scaleUpFactor = 0 then wrap32 d.convUndefined
  else
    let minNumPods := ceilDiv pending capacity
    let k := ceilDiv minNumPods scaleUpFactor * scaleUpFactor
    if isInt32 k then k else wrap32 d.convUndefined

/-- Lines 137-149 of `doautoscale`: the replica count before the scale-down
clamp. -/
def idealReplicas (d : Deps) (capacity : Int) (state : State) (scaleUpFactor pending : Int) : Int :=
  let newreplicas := wrap32 (state.LastOrdinal + 1)
  let newreplicas :=
    if 0 < pending then wrap32 (newreplicas + scaleUpIncrement d pending capacity scaleUpFactor)
    else newreplicas
  if newreplicas ≤ state.LastOrdinal then wrap32 (state.LastOrdinal + scaleUpFactor)
  else newreplicas

/-- Lines 151-154 of `doautoscale`: only scale down if permitted. -/
def clampReplicas (attemptScaleDown : Bool) (newreplicas replicas : Int) : Int :=
  if attemptScaleDown = false ∧ newreplicas < replicas then replicas else newreplicas

/-- The replica count `doautoscale` decides on (lines 128-154), given the
snapshot and the current replica count. -/
def decidedReplicas (d : Deps) (a : autoscaler) (state : State) (attemptScaleDown : Bool)
    (pending replicas : Int) : Int :=
  clampReplicas attemptScaleDown
    (idealReplicas d a.capacity state (scaleUpFactor d state) pending) replicas

/-- The loop of lines 221-230 of `compact` for one placement, started at `i`
with the trace `tr`; it runs at most `scaleUpFactor` times, which `n` counts
down. -/
def compactOrdinals (d : Deps) (a : autoscaler) (s : State) (scaleUpFactor : Int)
    (vpod : VPod) (placement : Placement) : Nat → Int → List Event → List Event × Option Err
  | 0, _, tr => (tr, none)
  | n + 1, i, tr =>
    if i < scaleUpFactor then
      let ordinal := d.OrdinalFromPodName placement.PodName
      if ordinal = wrap32 (s.LastOrdinal - i) then
        match a.evictor tr vpod placement with
        | some err => (tr ++ [Event.evict vpod placement], some err)
        | none =>
          compactOrdinals d a s scaleUpFactor vpod placement n (wrap32 (i + 1))
            (tr ++ [Event.evict vpod placement])
      else compactOrdinals d a s scaleUpFactor vpod placement n (wrap32 (i + 1)) tr
    else (tr, none)

/-- The loop of lines 220-231 of `compact` over the placements of one VPod. -/
def compactPlacements (d : Deps) (a : autoscaler) (s : State) (scaleUpFactor : Int)
    (vpod : VPod) : List Placement → List Event → List Event × Option Err
  | [], tr => (tr, none)
  | placement :: placements, tr =>
    match compactOrdinals d a s scaleUpFactor vpod placement scaleUpFactor.toNat 0 tr with
    | (tr', some err) => (tr', some err)
    | (tr', none) => compactPlacements d a s scaleUpFactor vpod placements tr'

/-- The loop of lines 218-232 of `compact` over the VPods. -/
def compactVPods (d : Deps) (a : autoscaler) (s : State) (scaleUpFactor : Int) :
    List VPod → List Event → List Event × Option Err
  | [], tr => (tr, none)
  | vpod :: vpods, tr =>
    match compactPlacements d a s scaleUpFactor vpod vpod.placements tr with
    | (tr', some err) => (tr', some err)
    | (tr', none) => compactVPods d a s scaleUpFactor vpods tr'

/-- The method `autoscaler.compact` (lines 212-234): the trace of its calls and
the error it returns. -/
def compact (d : Deps) (a : autoscaler) (s : State) (scaleUpFactor : Int) :
    List Event × Option Err :=
  match a.vpodLister with
  | Except.error err => ([Event.listVPods], some err)
  | Except.ok vpods => compactVPods d a s scaleUpFactor vpods [Event.listVPods]

/-- The loop of lines 198-201 of `mayCompact`, started at `i` with the current
`freeCapacity` and `usedInLastXPods`; it runs at most `scaleUpFactor` times,
which `n` counts down. -/
def trailingLoop (s : State) (scaleUpFactor : Int) : Nat → Int → Int → Int → Int × Int
  | 0, _, freeCapacity, usedInLastXPods => (freeCapacity, usedInLastXPods)
  | n + 1, i, freeCapacity, usedInLastXPods =>
    if i < scaleUpFactor ∧ 0 ≤ wrap32 (s.LastOrdinal - i) then
      trailingLoop s scaleUpFactor n (wrap32 (i + 1))
        (wrap32 (freeCapacity - Free s (wrap32 (s.LastOrdinal - i))))
        (wrap32 (usedInLastXPods - Free s (wrap32 (s.LastOrdinal - i))))
    else (freeCapacity, usedInLastXPods)

/-- The method `autoscaler.mayCompact` (lines 174-210): the trace of its calls.
An error of `compact` is only logged. -/
def mayCompact (d : Deps) (a : autoscaler) (s : State) (scaleUpFactor : Int) : List Event :=
  if s.LastOrdinal < 1 then []
  else if s.SchedulerPolicy = SchedulerPolicyType.MAXFILLUP then
    let freeCapacity := wrap32 (FreeCapacity s - Free s s.LastOrdinal)
    let usedInLastPod := wrap32 (s.Capacity - Free s s.LastOrdinal)
    if freeCapacity ≥ usedInLastPod then (compact d a s scaleUpFactor).1 else []
  else if s.SchedPolicy.isSome then
    let r := trailingLoop s scaleUpFactor scaleUpFactor.toNat 0 (FreeCapacity s)
      (wrap32 (s.Capacity * scaleUpFactor))
    if r.1 ≥ r.2 then (compact d a s scaleUpFactor).1 else []
  else []

/-- The method `autoscaler.doautoscale` (lines 109-172): the trace of its calls
and the error it returns. -/
def doautoscale (d : Deps) (a : autoscaler) (attemptScaleDown : Bool) (pending : Int) :
    List Event × Option Err :=
  match a.stateAccessor with
  | Except.error err => ([], some err)
  | Except.ok state =>
    match a.getScale with
    | Except.error err => ([], some err)
    | Except.ok replicas =>
      let newreplicas := decidedReplicas d a state attemptScaleDown pending replicas
      if newreplicas ≠ replicas then
        match a.updateScale newreplicas with
        | some err => ([Event.updateScale newreplicas], some err)
        | none => ([Event.updateScale newreplicas], none)
      else if attemptScaleDown then
        (Event.mayCompact :: mayCompact d a state (scaleUpFactor d state), none)
      else ([], none)

/-! ## Specification-side definitions and concrete inputs -/

/-- The argument document of the tests, `MaxSkew` set to 2. -/
def argsMaxSkew2 : String := "\x7b\"MaxSkew\": 2\x7d"

/-- A decoder for concrete inputs: it accepts exactly the document of the tests. -/
def decodeExample (s : String) : Option Int :=
  if s = argsMaxSkew2 then some 2 else none

/-- A snapshot for concrete inputs: pods `pod-name-0 .. pod-name-lastOrdinal`, one VPod
whose counts on the pods are given by `counts`. -/
def spreadState (lastOrdinal : Int) (counts : String → Int) : State where
  FreeCap := fun _ => 0
  LastOrdinal := lastOrdinal
  Capacity := 0
  NumZones := 0
  NumNodes := 0
  SchedulerPolicy := SchedulerPolicyType.other ""
  SchedPolicy := none
  StatefulSetName := "pod-name"
  PodSpread := fun _ podName => counts podName

/-- The counts `[5,4,3,4,5]` of the test "one vpod, five pods, same pod filter". -/
def countsFive (podName : String) : Int :=
  if podName = "pod-name-0" then 5
  else if podName = "pod-name-1" then 4
  else if podName = "pod-name-2" then 3
  else if podName = "pod-name-3" then 4
  else if podName = "pod-name-4" then 5
  else 0

/-- The sum `S` of the specification: over every ordinal `Q` in
`0 .. LastOrdinal` with `Q ≠ podID`, the absolute difference
`|(currentReps - 1) - repsOnQ|` of mathematical integers. -/
def skewSum (states : State) (key : NamespacedName) (podID : Int) : Nat :=
  let currentReps := states.PodSpread key (PodNameFromOrdinal states.StatefulSetName podID)
  (((List.range (states.LastOrdinal + 1).toNat).filter (fun (q : Nat) => (q : Int) ≠ podID)).map
    (fun (q : Nat) => ((currentReps - 1) -
      states.PodSpread key (PodNameFromOrdinal states.StatefulSetName (q : Int))).natAbs)).sum

/-- Counts for two pods: nothing on `pod-name-0`, `MaxInt32` on `pod-name-1`. -/
def countsExtreme (podName : String) : Int :=
  if podName = "pod-name-1" then 2147483647 else 0

/-- Values for the declarations of `Deps`, for concrete inputs: pods are named
`pod-0`, `pod-1`, ... -/
def depsEx : Deps where
  AvailabilityZonePriority := "AvailabilityZonePriority"
  AvailabilityNodePriority := "AvailabilityNodePriority"
  OrdinalFromPodName := fun podName =>
    if podName = "pod-0" then 0
    else if podName = "pod-1" then 1
    else if podName = "pod-2" then 2
    else if podName = "pod-3" then 3
    else 2147483647
  convUndefined := -2147483648

/-- A snapshot for concrete inputs, with no PodSpread entries. -/
def stEx (lastOrdinal capacity : Int) (freeCap : Int → Int) (numZones : Int)
    (schedPolicy : Option SchedulerPolicy) (policy : SchedulerPolicyType) : State where
  FreeCap := freeCap
  LastOrdinal := lastOrdinal
  Capacity := capacity
  NumZones := numZones
  NumNodes := 0
  SchedPolicy := schedPolicy
  SchedulerPolicy := policy
  StatefulSetName := "pod"
  PodSpread := fun _ _ => 0

/-- An autoscaler for concrete inputs: every collaborator succeeds, the
adapter capacity is 10. -/
def asEx (state : State) (replicas : Int) (vpods : List VPod) : autoscaler where
  stateAccessor := Except.ok state
  getScale := Except.ok replicas
  updateScale := fun _ => none
  vpodLister := Except.ok vpods
  evictor := fun _ _ _ => none
  capacity := 10

/-- A scheduling policy whose only priority is the availability-zone priority. -/
def zonePolicy : Option SchedulerPolicy := some ⟨[⟨"AvailabilityZonePriority"⟩]⟩

/-- Two pods (`LastOrdinal = 1`) of capacity 10, no scheduling policy. -/
def twoPods : State := stEx 1 10 (fun _ => 0) 1 none (SchedulerPolicyType.other "")

/-- Two pods of capacity 10 under a zone-spread policy with three zones. -/
def twoPodsThreeZones : State := stEx 1 10 (fun _ => 0) 3 zonePolicy (SchedulerPolicyType.other "")

/-- Three pods (`LastOrdinal = 2`) of capacity 10 with free capacities
`[9, 5, 5]` under the pack-tightest policy together with a zone-spread
policy over two zones. -/
def threePodsPacked : State :=
  stEx 2 10 (fun i => if i = 0 then 9 else 5) 2 zonePolicy SchedulerPolicyType.MAXFILLUP

/-- A VPod with placements on `pod-0` and `pod-2`. -/
def vpodA : VPod := ⟨⟨"ns", "a"⟩, 6, [⟨"pod-0", 1⟩, ⟨"pod-2", 5⟩]⟩

/-- A VPod with a placement on `pod-1`. -/
def vpodB : VPod := ⟨⟨"ns", "b"⟩, 5, [⟨"pod-1", 5⟩]⟩

/-- One pod (`LastOrdinal = 0`) of capacity 10, entirely free, under the
pack-tightest policy. -/
def onePodFree : State := stEx 0 10 (fun _ => 10) 1 none SchedulerPolicyType.MAXFILLUP

/-- Two pods (`LastOrdinal = 1`) of capacity 10, entirely free, under a
zone-spread policy with three zones. -/
def twoPodsFree : State := stEx 1 10 (fun _ => 10) 3 zonePolicy (SchedulerPolicyType.other "")

/-- Four pods (`LastOrdinal = 3`) of capacity 10 with free capacities
`[10, 10, 6, 6]` under a zone-spread policy with two zones. -/
def fourPodsSpread : State :=
  stEx 3 10 (fun i => if i ≤ 1 then 10 else 6) 2 zonePolicy (SchedulerPolicyType.other "")

/-- A VPod whose only placement, of no virtual replica, is on `pod-0`. -/
def vpodOnPod0 : VPod := ⟨⟨"ns", "z"⟩, 0, [⟨"pod-0", 0⟩]⟩

/-- A VPod whose only placement, of no virtual replica, is on `pod-1`. -/
def vpodOnPod1 : VPod := ⟨⟨"ns", "z"⟩, 0, [⟨"pod-1", 0⟩]⟩

/-- A VPod with placements of four virtual replicas on `pod-2` and on `pod-3`. -/
def vpodC : VPod := ⟨⟨"ns", "c"⟩, 8, [⟨"pod-2", 4⟩, ⟨"pod-3", 4⟩]⟩

/-- Whether a placement lies on one of the last `scaleUpFactor` pods, the
ordinals `LastOrdinal - scaleUpFactor + 1 .. LastOrdinal`. -/
def inTrailingGroup (d : Deps) (s : State) (scaleUpFactor : Int) (placement : Placement) : Bool :=
  decide (s.LastOrdinal - scaleUpFactor + 1 ≤ d.OrdinalFromPodName placement.PodName ∧
    d.OrdinalFromPodName placement.PodName ≤ s.LastOrdinal)

/-- The evictions of the specification for a list of VPods: one for each
(VPod, placement) in the trailing group, in lister order then placement order. -/
def trailingEvictions (d : Deps) (s : State) (scaleUpFactor : Int) (vpods : List VPod) :
    List Event :=
  vpods.flatMap (fun vpod =>
    (vpod.placements.filter (inTrailingGroup d s scaleUpFactor)).map (Event.evict vpod))

/-- The sum of `Free` over the pods outside the trailing group of the last `g`
pods: the ordinals `0 .. LastOrdinal - g`. -/
def freeOutside (s : State) (g : Nat) : Int :=
  ((List.range ((s.LastOrdinal + 1).toNat - g)).map (fun (i : Nat) => Free s (i : Int))).sum

/-- The sum of `Capacity - Free` over the pods inside the trailing group of the
last `g` pods: the ordinals `LastOrdinal - g + 1 .. LastOrdinal` that exist
(are at least 0). -/
def usedInside (s : State) (g : Nat) : Int :=
  ((List.range g).map (fun (j : Nat) =>
    if 0 ≤ s.LastOrdinal - (j : Int) then s.Capacity - Free s (s.LastOrdinal - (j : Int))
    else 0)).sum

/-- The sum of `Free` over the pods `LastOrdinal - i, LastOrdinal - i - 1, ...`
(`n` of them, as far as they exist): what `n` further iterations of the loop of
`mayCompact` subtract when started at `i`. -/
def trailingFree (s : State) : Nat → Int → Int
  | 0, _ => 0
  | n + 1, i =>
    if 0 ≤ s.LastOrdinal - i then Free s (s.LastOrdinal - i) + trailingFree s n (i + 1) else 0

/-- An event of a compaction: a call of the lister or of the evictor. -/
def isCompactionCall : Event → Prop
  | Event.listVPods => True
  | Event.evict _ _ => True
  | _ => False

/-- A scheduling policy that lists the availability-node priority before the
availability-zone priority. -/
def nodeAndZonePolicy : Option SchedulerPolicy :=
  some ⟨[⟨"AvailabilityNodePriority"⟩, ⟨"AvailabilityZonePriority"⟩]⟩

/-- Two pods under a policy with both spread priorities, three zones and five
nodes. -/
def twoPodsZonesAndNodes : State where
  FreeCap := fun _ => 0
  LastOrdinal := 1
  Capacity := 10
  NumZones := 3
  NumNodes := 5
  SchedPolicy := nodeAndZonePolicy
  SchedulerPolicy := SchedulerPolicyType.other ""
  StatefulSetName := "pod"
  PodSpread := fun _ _ => 0

/-- An autoscaler for concrete inputs whose snapshot and scale reads succeed,
whose `UpdateScale` succeeds, and whose lister fails. -/
def asListerFails (state : State) (replicas : Int) : autoscaler where
  stateAccessor := Except.ok state
  getScale := Except.ok replicas
  updateScale := fun _ => none
  vpodLister := Except.error "lister unavailable"
  evictor := fun _ _ _ => none
  capacity := 10

/-- An autoscaler for concrete inputs whose snapshot and scale reads succeed
and whose `UpdateScale` fails. -/
def asUpdateFails (state : State) (replicas : Int) : autoscaler where
  stateAccessor := Except.ok state
  getScale := Except.ok replicas
  updateScale := fun _ => some "update refused"
  vpodLister := Except.ok []
  evictor := fun _ _ _ => none
  capacity := 10

/-- The (VPod, placement) pairs of the trailing group, in lister order then
placement order. -/
def trailingPairs (d : Deps) (s : State) (scaleUpFactor : Int) (vpods : List VPod) :
    List (VPod × Placement) :=
  vpods.flatMap (fun vpod =>
    (vpod.placements.filter (inTrailingGroup d s scaleUpFactor)).map (fun p => (vpod, p)))

/-- Evicting the given pairs one after the other, stopping at the first
eviction that fails: the trace, extended by the evictor calls made, and the
error of the failed eviction. -/
def evictInOrder (a : autoscaler) : List (VPod × Placement) → List Event →
    List Event × Option Err
  | [], tr => (tr, none)
  | (vpod, placement) :: rest, tr =>
    match a.evictor tr vpod placement with
    | some err => (tr ++ [Event.evict vpod placement], some err)
    | none => evictInOrder a rest (tr ++ [Event.evict vpod placement])

/-- An autoscaler for concrete inputs whose evictor fails on the placements of
`vpodB` and succeeds on all others. -/
def asEvictFails (state : State) (replicas : Int) (vpods : List VPod) : autoscaler where
  stateAccessor := Except.ok state
  getScale := Except.ok replicas
  updateScale := fun _ => none
  vpodLister := Except.ok vpods
  evictor := fun _ vpod _ => if vpod = vpodB then some "eviction refused" else none
  capacity := 10

/-- A VPod with a placement on `pod-2`. -/
def vpodD : VPod := ⟨⟨"ns", "d"⟩, 1, [⟨"pod-2", 1⟩]⟩

/-! ## Decoding of the argument document -/

/-- A JSON value as far as decoding into an `int32` field depends on it: an
integer literal, `null`, or any other value. -/
inductive JsonValue where
  | int (n : Int)
  | null
  | other
  deriving DecidableEq, Repr

/-- The first JSON value of an argument string as far as decoding into a
struct depends on it: an object with its keys and values in order, `null`, or
any other value. -/
inductive JsonDoc where
  | object (fields : List (String × JsonValue))
  | null
  | other
  deriving DecidableEq, Repr

/-- Library behaviour, after the documentation of Go's `encoding/json`: the
folding under which an object key is compared with a field name.  ASCII
lower-case letters fold to upper case; the only other characters that fold to
an ASCII letter are the long s (U+017F, to `S`) and the Kelvin sign (U+212A,
to `K`). -/
def foldRune (c : Char) : Char :=
  if 97 ≤ c.toNat ∧ c.toNat ≤ 122 then Char.ofNat (c.toNat - 32)
  else if c.toNat = 383 then Char.ofNat 83
  else if c.toNat = 8490 then Char.ofNat 75
  else c

/-- Whether an object key matches the field `MaxSkew`, the only field of
`state.EvenPodSpreadArgs`: `encoding/json` accepts an exact match and also a
case-insensitive one. -/
def matchesMaxSkew (key : String) : Bool :=
  key.data.map foldRune = "MAXSKEW".data

/-- Library behaviour, after the documentation of Go's `encoding/json`: the
decoding of the key/value pairs of an object into `EvenPodSpreadArgs` with
`DisallowUnknownFields`, `maxSkew` being the value of the field so far.  A key
that matches no field is an error; for a key that matches `MaxSkew` an integer
literal in the `int32` range is stored, `null` leaves the field as it is, and
any other value is an error.  `none` stands for a decode error. -/
def decodeFields : List (String × JsonValue) → Int → Option Int
  | [], maxSkew => some maxSkew
  | (key, value) :: fields, maxSkew =>
    if matchesMaxSkew key then
      match value with
      | JsonValue.int n => if isInt32 n then decodeFields fields n else none
      | JsonValue.null => decodeFields fields maxSkew
      | JsonValue.other => none
    else none

/-- Lines 65-70 of `Score`: `decoder.DisallowUnknownFields()` and
`decoder.Decode(&skewVal)` on a zero `EvenPodSpreadArgs`, given the library's
reading `parse` of the first JSON value of the string (`none` on a syntax error
or an empty input).  `null` decodes into a struct without changing it, a value
that is neither an object nor `null` is an error. -/
def decodeStrict (parse : String → Option JsonDoc) (spreadArgs : String) : Option Int :=
  match parse spreadArgs with
  | none => none
  | some JsonDoc.null => some 0
  | some JsonDoc.other => none
  | some (JsonDoc.object fields) => decodeFields fields 0

/-- The argument document of the test "no vpods, no pods, bad arg". -/
def argsMaxSkewness : String := "\x7b\"MaxSkewness\": 2\x7d"

/-- An argument document whose key is `maxskew`, in lower case. -/
def argsLowerCase : String := "\x7b\"maxskew\": 2\x7d"

/-- The reading of three argument documents, for concrete inputs. -/
def parseExample (s : String) : Option JsonDoc :=
  if s = argsMaxSkew2 then some (JsonDoc.object [("MaxSkew", JsonValue.int 2)])
  else if s = argsMaxSkewness then some (JsonDoc.object [("MaxSkewness", JsonValue.int 2)])
  else if s = argsLowerCase then some (JsonDoc.object [("maxskew", JsonValue.int 2)])
  else none

/-! ## The control loop and its trigger -/

/-- The channel `a.trigger`, made by `make(chan int32, 1)`: `buffer` holds the
values sent and not yet received (at most `triggerCap`), `sendq` the values of
the `Autoscale` calls blocked in their send, oldest first. -/
structure Trigger where
  buffer : List Int
  sendq : List Int
  deriving DecidableEq, Repr

/-- The capacity of `a.trigger`. -/
def triggerCap : Nat := 1

/-- The method `autoscaler.Autoscale` (lines 105-107), the send
`a.trigger <- pending`: with room in the buffer the value is buffered and the
call returns; with a full buffer the send blocks, and the call has not
returned.  The result is the channel afterwards and whether the call has
returned. -/
def Autoscale (t : Trigger) (pending : Int) : Trigger × Bool :=
  if t.buffer.length < triggerCap then (⟨t.buffer ++ [pending], t.sendq⟩, true)
  else (⟨t.buffer, t.sendq ++ [pending]⟩, false)

/-- The receive `pending = <-a.trigger` of the `select` of `Start` (line 90):
it is ready when the buffer holds a value, yields the oldest one, and lets the
oldest blocked send complete into the buffer.  `none`: the case is not ready. -/
def receiveTrigger (t : Trigger) : Option (Int × Trigger) :=
  match t.buffer with
  | [] => none
  | pending :: rest =>
    match t.sendq with
    | [] => some (pending, ⟨rest, []⟩)
    | blocked :: sendq => some (pending, ⟨rest ++ [blocked], sendq⟩)

/-- One triggered iteration of the loop of `Start` (lines 90-101): the receive
sets `pending` and clears `attemptScaleDown`, and `doautoscale` runs with
them.  The result is the trace and error of that pass, the value of `pending`
it ran with, and the channel afterwards. -/
def triggeredPass (d : Deps) (a : autoscaler) (t : Trigger) :
    Option ((List Event × Option Err) × Int × Trigger) :=
  match receiveTrigger t with
  | none => none
  | some (pending, t') => some (doautoscale d a false pending, pending, t')

/-- The condition function `Start` passes to `wait.Poll` (lines 96-99): it
runs `doautoscale` and reports whether the pass is done (`err == nil`), with no
error of its own. -/
def pollCondition (d : Deps) (a : autoscaler) (attemptScaleDown : Bool) (pending : Int) :
    Bool × Option Err :=
  ((doautoscale d a attemptScaleDown pending).2.isNone, none)

/-- The channel after `Autoscale` calls with the given hints, made one after
the other. -/
def sendAll (t : Trigger) (hints : List Int) : Trigger :=
  hints.foldl (fun t pending => (Autoscale t pending).1) t

/-- The values of `pending` of the next `n` triggered iterations of the loop,
as far as the trigger is ready. -/
def receiveAll : Nat → Trigger → List Int
  | 0, _ => []
  | n + 1, t =>
    match receiveTrigger t with
    | none => []
    | some (pending, t') => pending :: receiveAll n t'

/-- A channel state that sends and receives can reach: the buffer holds at most
one value, and sends are blocked only while it holds one. -/
def Trigger.reachable (t : Trigger) : Prop :=
  t.buffer.length ≤ triggerCap ∧ (t.sendq ≠ [] → t.buffer.length = triggerCap)

/-! ## Concrete inputs for the remaining properties -/

/-- A well-formed argument document with `MaxSkew` set to 0. -/
def argsMaxSkew0 : String := "\x7b\"MaxSkew\": 0\x7d"

/-- The reading of two argument documents that differ in the `MaxSkew` value
only, for concrete inputs. -/
def parseSkews (s : String) : Option JsonDoc :=
  if s = argsMaxSkew2 then some (JsonDoc.object [("MaxSkew", JsonValue.int 2)])
  else if s = argsMaxSkew0 then some (JsonDoc.object [("MaxSkew", JsonValue.int 0)])
  else none

/-- One periodic iteration of the loop of `Start` (lines 88-101): the timer
case sets `attemptScaleDown` and leaves `pending` at 0, the value it has at the
start of every iteration, and `doautoscale` runs with them. -/
def periodicPass (d : Deps) (a : autoscaler) : List Event × Option Err :=
  doautoscale d a true 0

/-- A snapshot whose `LastOrdinal` is the largest `int32`, under a zone-spread
policy with two zones. -/
def hugePool : State :=
  stEx 2147483647 10 (fun _ => 0) 2 zonePolicy (SchedulerPolicyType.other "")

/-- Two full pods (`LastOrdinal = 1`) of capacity 65536 under a zone-spread
policy with 65536 zones. -/
def poolOverflow : State :=
  stEx 1 65536 (fun _ => 0) 65536 zonePolicy (SchedulerPolicyType.other "")

/-- A VPod that fills `pod-0` and `pod-1` of `poolOverflow`. -/
def vpodFull : VPod := ⟨⟨"ns", "f"⟩, 131072, [⟨"pod-0", 65536⟩, ⟨"pod-1", 65536⟩]⟩

/-! # Theorems -/

/-! ## Machine integers -/

/-- An `int32` operation whose mathematical result is in range yields it. -/
theorem wrap32_of_isInt32 {x : Int} (h : isInt32 x) : wrap32 x = x := by
  unfold isInt32 MinInt32 MaxInt32 at h
  unfold wrap32
  omega

/-- Every result of an `int32` operation is an `int32`. -/
theorem isInt32_wrap32 (x : Int) : isInt32 (wrap32 x) := by
  unfold isInt32 MinInt32 MaxInt32 wrap32
  omega

/-! ## The even-spread score plugin -/

/-- Away from the pair `(0, MaxInt32)` the skew of two non-negative `int32`
counts is the absolute difference, and its `uint64` conversion is exact. -/
theorem skewOf_eq_natAbs (currentReps otherReps : Int)
    (hc : 0 ≤ currentReps ∧ currentReps ≤ MaxInt32)
    (ho : 0 ≤ otherReps ∧ otherReps ≤ MaxInt32)
    (hne : ¬ (currentReps = 0 ∧ otherReps = MaxInt32)) :
    skewOf currentReps otherReps = ((currentReps - 1 - otherReps).natAbs : Int) ∧
    uint64OfInt32 (skewOf currentReps otherReps) = (currentReps - 1 - otherReps).natAbs := by
  unfold MaxInt32 at *
  have h1 : skewOf currentReps otherReps = ((currentReps - 1 - otherReps).natAbs : Int) := by
    unfold skewOf wrap32
    simp only []
    split_ifs <;> omega
  refine ⟨h1, ?_⟩
  unfold uint64OfInt32
  rw [h1]
  omega

/-- The part of the sum `S` over the ordinals `start, ..., start + n - 1`. -/
theorem scoreLoop_eq (states : State) (key : NamespacedName) (podID : Int)
    (hL : states.LastOrdinal < MaxInt32)
    (hcounts : ∀ podName, 0 ≤ states.PodSpread key podName ∧
      states.PodSpread key podName < MaxInt32) :
    ∀ (n start score fuel : Nat), (start : Int) + n = states.LastOrdinal + 1 → n < fuel →
      score < 18446744073709551616 →
      scoreLoop states key podID
          (states.PodSpread key (PodNameFromOrdinal states.StatefulSetName podID))
          fuel (start : Int) score
        = some ((score +
            (((List.range' start n).filter (fun (q : Nat) => (q : Int) ≠ podID)).map
              (fun (q : Nat) =>
                ((states.PodSpread key (PodNameFromOrdinal states.StatefulSetName podID) - 1) -
                  states.PodSpread key
                    (PodNameFromOrdinal states.StatefulSetName (q : Int))).natAbs)).sum)
            % 18446744073709551616) := by
  intro n
  induction n with
  | zero =>
    intro start score fuel hs hf hsc
    obtain ⟨f, rfl⟩ : ∃ f, fuel = f + 1 := ⟨fuel - 1, by omega⟩
    have hgt : ¬ ((start : Int) ≤ states.LastOrdinal) := by push_cast at hs; omega
    simp [scoreLoop, hgt, Nat.mod_eq_of_lt hsc]
  | succ n ih =>
    intro start score fuel hs hf hsc
    obtain ⟨f, rfl⟩ : ∃ f, fuel = f + 1 := ⟨fuel - 1, by omega⟩
    push_cast at hs
    have hle : (start : Int) ≤ states.LastOrdinal := by omega
    have hw : wrap32 ((start : Int) + 1) = ((start + 1 : Nat) : Int) := by
      unfold MaxInt32 at hL
      unfold wrap32
      push_cast
      omega
    unfold scoreLoop
    rw [if_pos hle, hw, List.range'_succ]
    by_cases hp : (start : Int) ≠ podID
    · rw [if_pos hp]
      simp only []
      have hcur := hcounts (PodNameFromOrdinal states.StatefulSetName podID)
      have hoth := hcounts (PodNameFromOrdinal states.StatefulSetName (start : Int))
      have hsk := (skewOf_eq_natAbs _ _ ⟨hcur.1, le_of_lt hcur.2⟩ ⟨hoth.1, le_of_lt hoth.2⟩
        (by omega)).2
      rw [hsk, ih (start + 1) _ f (by push_cast; omega) (by omega)
        (by unfold addUint64; omega)]
      have hfil : decide ((start : Int) ≠ podID) = true := by simpa using hp
      rw [List.filter_cons, if_pos hfil, List.map_cons, List.sum_cons]
      unfold addUint64
      rw [Option.some.injEq]
      omega
    · rw [if_neg hp, ih (start + 1) score f (by push_cast; omega) (by omega) hsc]
      have hfil : ¬ (decide ((start : Int) ≠ podID) = true) := by simpa using hp
      rw [List.filter_cons, if_neg hfil]

/-- The sum `S` stays far below `2^64` for counts below `MaxInt32`. -/
theorem skewSum_lt (states : State) (key : NamespacedName) (podID : Int)
    (hL : states.LastOrdinal < MaxInt32)
    (hcounts : ∀ podName, 0 ≤ states.PodSpread key podName ∧
      states.PodSpread key podName < MaxInt32) :
    skewSum states key podID ≤ 4611686018427387904 := by
  have hlen : ∀ (l : List Nat), (l.map (fun (q : Nat) =>
      ((states.PodSpread key (PodNameFromOrdinal states.StatefulSetName podID) - 1) -
        states.PodSpread key
          (PodNameFromOrdinal states.StatefulSetName (q : Int))).natAbs)).sum
      ≤ l.length * 2147483648 := by
    intro l
    induction l with
    | nil => simp
    | cons q l ih =>
      have hcur := hcounts (PodNameFromOrdinal states.StatefulSetName podID)
      have hoth := hcounts (PodNameFromOrdinal states.StatefulSetName (q : Int))
      unfold MaxInt32 at hcur hoth
      rw [List.map_cons, List.sum_cons, List.length_cons]
      omega
  unfold skewSum
  simp only []
  refine le_trans (hlen _) ?_
  have h1 : ((List.range (states.LastOrdinal + 1).toNat).filter
      (fun (q : Nat) => (q : Int) ≠ podID)).length ≤ (states.LastOrdinal + 1).toNat :=
    le_trans (List.length_filter_le _ _) (by simp)
  have h2 : (states.LastOrdinal + 1).toNat ≤ 2147483648 := by
    unfold MaxInt32 at hL
    omega
  calc _ ≤ (states.LastOrdinal + 1).toNat * 2147483648 := Nat.mul_le_mul_right _ h1
    _ ≤ 2147483648 * 2147483648 := Nat.mul_le_mul_right _ h2
    _ = 4611686018427387904 := by norm_num

/-- For a well-formed argument string, `0 ≤ LastOrdinal < MaxInt32` and counts
in `0 .. MaxInt32 - 1`, `Score` returns `MaxUint64 - S` and `Success`, given
fuel for `LastOrdinal + 2` loop tests. -/
theorem Score_eq_of_small_counts (decode : String → Option Int) (fuel : Nat)
    (spreadArgs : String) (maxSkew : Int) (states : State) (key : NamespacedName) (podID : Int)
    (hd : decode spreadArgs = some maxSkew)
    (hL : 0 ≤ states.LastOrdinal ∧ states.LastOrdinal < MaxInt32)
    (hcounts : ∀ podName, 0 ≤ states.PodSpread key podName ∧
      states.PodSpread key podName < MaxInt32)
    (hfuel : states.LastOrdinal + 2 ≤ fuel) :
    Score decode fuel (Args.str spreadArgs) states key podID
      = some (MaxUint64 - skewSum states key podID, NewStatus Code.Success []) := by
  have hloop := scoreLoop_eq states key podID hL.2 hcounts (states.LastOrdinal + 1).toNat 0 0 fuel
    (by push_cast; omega) (by omega) (by norm_num)
  have hlt := skewSum_lt states key podID hL.2 hcounts
  unfold Score
  simp only [hd, if_pos hL.1]
  have h0 : ((0 : Nat) : Int) = 0 := rfl
  rw [h0] at hloop
  rw [hloop]
  simp only []
  have hS : (0 + (((List.range' 0 (states.LastOrdinal + 1).toNat).filter
      (fun (q : Nat) => (q : Int) ≠ podID)).map
        (fun (q : Nat) =>
          ((states.PodSpread key (PodNameFromOrdinal states.StatefulSetName podID) - 1) -
            states.PodSpread key
              (PodNameFromOrdinal states.StatefulSetName (q : Int))).natAbs)).sum)
      % 18446744073709551616 = skewSum states key podID := by
    rw [← List.range_eq_range', Nat.zero_add]
    apply Nat.mod_eq_of_lt
    unfold skewSum at hlt
    simp only [] at hlt
    omega
  rw [hS]

/-- With `LastOrdinal = MaxInt32` the loop counter wraps around before the loop
test can fail: the loop does not end, whatever the fuel. -/
theorem scoreLoop_diverges (states : State) (key : NamespacedName) (podID currentReps : Int)
    (hL : states.LastOrdinal = MaxInt32) :
    ∀ (fuel : Nat) (otherPodID : Int) (score : Nat), otherPodID ≤ MaxInt32 →
      scoreLoop states key podID currentReps fuel otherPodID score = none := by
  intro fuel
  induction fuel with
  | zero => intro _ _ _; rfl
  | succ fuel ih =>
    intro otherPodID score h
    have hw := (isInt32_wrap32 (otherPodID + 1)).2
    unfold scoreLoop
    rw [if_pos (by rw [hL]; exact h)]
    split_ifs
    · exact ih _ _ hw
    · exact ih _ _ hw

/-- The score plugin on the inputs of the repository's test table
(`TestFilter`): the model returns the expected score and status on six of its
seven cases (the remaining case adds entries for a second VPod key only). -/
theorem Score_test_table :
    Score decodeExample 10 (Args.str argsMaxSkew2) (spreadState (-1) (fun _ => 0)) ⟨"", ""⟩ 0
      = some (0, NewStatus Code.Success []) ∧
    Score decodeExample 10 (Args.str "\x7b\"MaxSkewness\": 2\x7d")
        (spreadState (-1) (fun _ => 0)) ⟨"", ""⟩ 0
      = some (0, NewStatus Code.Unschedulable [ErrReasonInvalidArg]) ∧
    Score decodeExample 10 (Args.str argsMaxSkew2)
        (spreadState 0 (fun podName => if podName = "pod-name-0" then 5 else 0))
        ⟨"vpod-ns-0", "vpod-name-0"⟩ 0
      = some (MaxUint64, NewStatus Code.Success []) ∧
    Score decodeExample 10 (Args.str argsMaxSkew2)
        (spreadState 1 (fun podName =>
          if podName = "pod-name-0" then 5 else if podName = "pod-name-1" then 5 else 0))
        ⟨"vpod-ns-0", "vpod-name-0"⟩ 1
      = some (MaxUint64 - 1, NewStatus Code.Success []) ∧
    Score decodeExample 10 (Args.str argsMaxSkew2) (spreadState 4 countsFive)
        ⟨"vpod-ns-0", "vpod-name-0"⟩ 1
      = some (MaxUint64 - 5, NewStatus Code.Success []) ∧
    Score decodeExample 10 (Args.str argsMaxSkew2)
        (spreadState 4 (fun podName => if podName = "pod-name-0" then 10 else countsFive podName))
        ⟨"vpod-ns-0", "vpod-name-0"⟩ 0
      = some (MaxUint64 - 20, NewStatus Code.Success []) := by
  decide

/-- C1: on two pods with counts `[0, 2147483647]` and candidate ordinal 0 the
skew `(0 - 1) - 2147483647 = -2147483648` is negated in `int32`, which leaves it
negative; `Score` returns `2147483647` where `MaxUint64 - S` is
`MaxUint64 - 2147483648`. -/
theorem Score_skew_negation_wraps :
    skewOf 0 2147483647 = -2147483648 ∧
    Score decodeExample 3 (Args.str argsMaxSkew2) (spreadState 1 countsExtreme)
      ⟨"vpod-ns-0", "vpod-name-0"⟩ 0 = some (2147483647, NewStatus Code.Success []) ∧
    MaxUint64 - skewSum (spreadState 1 countsExtreme) ⟨"vpod-ns-0", "vpod-name-0"⟩ 0
      = 18446744071562067967 := by
  decide

/-- C2: with `LastOrdinal < 0` the score is 0 for every key, candidate ordinal
and argument value, and the status is `Success` when the argument is a string
that decodes. -/
theorem Score_zero_of_no_pods (decode : String → Option Int) (fuel : Nat) (args : Args)
    (states : State) (key : NamespacedName) (podID : Int) (h : states.LastOrdinal < 0) :
    (∃ status, Score decode fuel args states key podID = some (0, status)) ∧
    (∀ spreadArgs maxSkew, args = Args.str spreadArgs → decode spreadArgs = some maxSkew →
      Score decode fuel args states key podID = some (0, NewStatus Code.Success [])) := by
  have hL : ¬ (0 ≤ states.LastOrdinal) := by omega
  constructor
  · cases args with
    | notString => exact ⟨_, rfl⟩
    | str s =>
      cases hd : decode s with
      | none => exact ⟨NewStatus Code.Unschedulable [ErrReasonInvalidArg], by simp [Score, hd]⟩
      | some m => exact ⟨NewStatus Code.Success [], by simp [Score, hd, hL]⟩
  · intro s m hs hd
    subst hs
    simp [Score, hd, hL]

/-- Witness of C2: the test case "no vpods, no pods". -/
theorem Score_zero_of_no_pods_witness :
    (spreadState (-1) (fun _ => 0)).LastOrdinal < 0 ∧
    Score decodeExample 0 (Args.str argsMaxSkew2) (spreadState (-1) (fun _ => 0))
      ⟨"", ""⟩ 0 = some (0, NewStatus Code.Success []) :=
  ⟨by decide,
   (Score_zero_of_no_pods decodeExample 0 (Args.str argsMaxSkew2)
      (spreadState (-1) (fun _ => 0)) ⟨"", ""⟩ 0 (by decide)).2 _ 2 rfl (by decide)⟩

/-! ## The autoscaler: sizing -/

/-- For a positive divisor `ceilDiv a b` is the least integer `c` with `a ≤ b * c`. -/
theorem ceilDiv_bounds (a b : Int) (hb : 0 < b) :
    a ≤ b * ceilDiv a b ∧ b * ceilDiv a b < a + b := by
  have h1 := Int.ediv_add_emod (-a) b
  have h2 := Int.emod_nonneg (-a) (ne_of_gt hb)
  have h3 := Int.emod_lt_of_pos (-a) hb
  have h4 : ceilDiv a b = -((-a) / b) := by
    unfold ceilDiv
    rw [Int.fdiv_eq_ediv _ (le_of_lt hb)]
  rw [h4, mul_neg]
  constructor <;> linarith

/-- On a positive divisor `ceilDiv` is the ceiling of the rational quotient. -/
theorem ceilDiv_eq_ceil (a b : Int) (hb : 0 < b) : ceilDiv a b = ⌈(a : ℚ) / (b : ℚ)⌉ := by
  symm
  rw [Int.ceil_eq_iff]
  obtain ⟨h1, h2⟩ := ceilDiv_bounds a b hb
  have hbq : (0 : ℚ) < (b : ℚ) := by exact_mod_cast hb
  constructor
  · rw [lt_div_iff₀ hbq]
    have : ((b * ceilDiv a b : Int) : ℚ) < ((a + b : Int) : ℚ) := by exact_mod_cast h2
    push_cast at this
    linarith
  · rw [div_le_iff₀ hbq]
    have : ((a : Int) : ℚ) ≤ ((b * ceilDiv a b : Int) : ℚ) := by exact_mod_cast h1
    push_cast at this
    linarith

/-- A positive dividend has a positive ceiling quotient. -/
theorem ceilDiv_pos (a b : Int) (ha : 0 < a) (hb : 0 < b) : 1 ≤ ceilDiv a b := by
  obtain ⟨h1, _⟩ := ceilDiv_bounds a b hb
  by_contra hcon
  have h0 : ceilDiv a b ≤ 0 := by omega
  have : b * ceilDiv a b ≤ 0 := Int.mul_nonpos_of_nonneg_of_nonpos (le_of_lt hb) h0
  omega

/-- The rounding `ceilDiv m f * f` is the least multiple of `f` that is at
least `m`. -/
theorem ceilDiv_mul_least (m f : Int) (hf : 0 < f) :
    f ∣ ceilDiv m f * f ∧ m ≤ ceilDiv m f * f ∧
    ∀ j : Int, f ∣ j → m ≤ j → ceilDiv m f * f ≤ j := by
  obtain ⟨hq1, hq2⟩ := ceilDiv_bounds m f hf
  refine ⟨⟨ceilDiv m f, by ring⟩, by rw [mul_comm]; exact hq1, ?_⟩
  rintro j ⟨t, rfl⟩ hj
  by_contra hcon
  have hlt : f * t < ceilDiv m f * f := by omega
  have htq : t < ceilDiv m f := by
    by_contra h'
    have hle : ceilDiv m f ≤ t := by omega
    have := Int.mul_le_mul_of_nonneg_left hle (le_of_lt hf)
    linarith
  have hle : t + 1 ≤ ceilDiv m f := by omega
  have := Int.mul_le_mul_of_nonneg_left hle (le_of_lt hf)
  linarith

/-- The rounded increment is at least the scale-up factor when something is pending. -/
theorem scaleUp_le_increment (pending capacity f : Int) (hp : 0 < pending)
    (hc : 0 < capacity) (hf : 0 < f) : f ≤ ceilDiv (ceilDiv pending capacity) f * f := by
  have hm := ceilDiv_pos pending capacity hp hc
  have hq := ceilDiv_pos (ceilDiv pending capacity) f (by omega) hf
  have := Int.mul_le_mul_of_nonneg_right hq (le_of_lt hf)
  linarith

/-- The replica count before the scale-down clamp when replicas are pending. -/
theorem idealReplicas_of_pending (d : Deps) (capacity : Int) (state : State)
    (scaleUpFactor pending : Int)
    (hp : 0 < pending) (hc : 1 ≤ capacity) (hf : 1 ≤ scaleUpFactor)
    (hL : isInt32 state.LastOrdinal)
    (hk : ceilDiv (ceilDiv pending capacity) scaleUpFactor * scaleUpFactor ≤ MaxInt32)
    (hno : state.LastOrdinal + 1 +
      ceilDiv (ceilDiv pending capacity) scaleUpFactor * scaleUpFactor ≤ MaxInt32) :
    idealReplicas d capacity state scaleUpFactor pending
      = state.LastOrdinal + 1 +
        ceilDiv (ceilDiv pending capacity) scaleUpFactor * scaleUpFactor := by
  have hge := scaleUp_le_increment pending capacity scaleUpFactor hp (by omega) (by omega)
  unfold idealReplicas scaleUpIncrement
  have hkint : isInt32 (ceilDiv (ceilDiv pending capacity) scaleUpFactor * scaleUpFactor) := by
    unfold isInt32 MinInt32 MaxInt32 at *
    constructor <;> omega
  have hne : ¬ (capacity = 0 ∨ scaleUpFactor = 0) := by omega
  simp only [hne, if_false, hkint, if_true, hp]
  generalize ceilDiv (ceilDiv pending capacity) scaleUpFactor * scaleUpFactor = k at *
  unfold isInt32 MinInt32 MaxInt32 at *
  unfold wrap32
  split_ifs <;> omega

/-- The replica count before the scale-down clamp when nothing is pending. -/
theorem idealReplicas_of_not_pending (d : Deps) (capacity : Int) (state : State)
    (scaleUpFactor pending : Int) (hp : pending ≤ 0)
    (hL : isInt32 state.LastOrdinal) (hno : state.LastOrdinal + 1 ≤ MaxInt32) :
    idealReplicas d capacity state scaleUpFactor pending = state.LastOrdinal + 1 := by
  unfold idealReplicas
  have hp' : ¬ (0 < pending) := by omega
  simp only [hp', if_false]
  unfold isInt32 MinInt32 MaxInt32 at *
  unfold wrap32
  split_ifs <;> omega

/-- The clamp never lowers the replica count. -/
theorem le_clampReplicas (attemptScaleDown : Bool) (newreplicas replicas : Int) :
    newreplicas ≤ clampReplicas attemptScaleDown newreplicas replicas := by
  unfold clampReplicas
  split_ifs <;> omega

/-- Without a scale-down attempt the clamp yields at least the current count. -/
theorem replicas_le_clampReplicas (newreplicas replicas : Int) :
    replicas ≤ clampReplicas false newreplicas replicas := by
  unfold clampReplicas
  split_ifs with h <;> simp at h <;> omega

/-- C3: for `pending > 0`, `Capacity ≥ 1` and `scaleUpFactor ≥ 1`, without `int32`
overflow, the replica count before the scale-down clamp is
`LastOrdinal + 1 + k` with `k = ceil(ceil(pending / Capacity) / scaleUpFactor) * scaleUpFactor`
(the two ceilings being those of the rational quotients), and `k` is the least
multiple of `scaleUpFactor` that is at least `ceil(pending / Capacity)`. -/
theorem idealReplicas_scale_up (d : Deps) (capacity : Int) (state : State)
    (scaleUpFactor pending : Int)
    (hp : 0 < pending) (hc : 1 ≤ capacity) (hf : 1 ≤ scaleUpFactor)
    (hL : isInt32 state.LastOrdinal)
    (hk : ceilDiv (ceilDiv pending capacity) scaleUpFactor * scaleUpFactor ≤ MaxInt32)
    (hno : state.LastOrdinal + 1 +
      ceilDiv (ceilDiv pending capacity) scaleUpFactor * scaleUpFactor ≤ MaxInt32) :
    idealReplicas d capacity state scaleUpFactor pending
      = state.LastOrdinal + 1 + ceilDiv (ceilDiv pending capacity) scaleUpFactor * scaleUpFactor ∧
    ceilDiv pending capacity = ⌈(pending : ℚ) / (capacity : ℚ)⌉ ∧
    ceilDiv (ceilDiv pending capacity) scaleUpFactor
      = ⌈((⌈(pending : ℚ) / (capacity : ℚ)⌉ : Int) : ℚ) / (scaleUpFactor : ℚ)⌉ ∧
    scaleUpFactor ∣ ceilDiv (ceilDiv pending capacity) scaleUpFactor * scaleUpFactor ∧
    ceilDiv pending capacity ≤ ceilDiv (ceilDiv pending capacity) scaleUpFactor * scaleUpFactor ∧
    ∀ j : Int, scaleUpFactor ∣ j → ceilDiv pending capacity ≤ j →
      ceilDiv (ceilDiv pending capacity) scaleUpFactor * scaleUpFactor ≤ j := by
  have hc0 : 0 < capacity := by omega
  have hf0 : 0 < scaleUpFactor := by omega
  obtain ⟨h1, h2, h3⟩ := ceilDiv_mul_least (ceilDiv pending capacity) scaleUpFactor hf0
  refine ⟨idealReplicas_of_pending d capacity state scaleUpFactor pending hp hc hf hL hk hno,
    ceilDiv_eq_ceil pending capacity hc0, ?_, h1, h2, h3⟩
  rw [← ceilDiv_eq_ceil pending capacity hc0]
  exact ceilDiv_eq_ceil (ceilDiv pending capacity) scaleUpFactor hf0

/-- Witness of C3: `Capacity = 10`, `LastOrdinal = 1`; `scaleUpFactor = 1` and
`pending = 15` give 4, `scaleUpFactor = 3` and `pending = 1` give 5. -/
theorem idealReplicas_scale_up_witness :
    idealReplicas depsEx 10 twoPods 1 15 = 4 ∧ idealReplicas depsEx 10 twoPods 3 1 = 5 :=
  ⟨(idealReplicas_scale_up depsEx 10 twoPods 1 15 (by decide) (by decide) (by decide)
      (by decide) (by decide) (by decide)).1.trans (by decide),
   (idealReplicas_scale_up depsEx 10 twoPods 3 1 (by decide) (by decide) (by decide)
      (by decide) (by decide) (by decide)).1.trans (by decide)⟩

/-- C4: on a pass that is not a scale-down attempt the decided replica count is
at least the current replica count, whatever the snapshot, `pending` and the
current count are, and every `UpdateScale` call of the pass carries a count that
is at least the current one. -/
theorem triggered_pass_never_scales_down (d : Deps) (a : autoscaler) (state : State)
    (pending replicas : Int)
    (hs : a.stateAccessor = Except.ok state) (hr : a.getScale = Except.ok replicas) :
    replicas ≤ decidedReplicas d a state false pending replicas ∧
    ∀ n, Event.updateScale n ∈ (doautoscale d a false pending).1 → replicas ≤ n := by
  have hge : replicas ≤ decidedReplicas d a state false pending replicas :=
    replicas_le_clampReplicas _ _
  refine ⟨hge, ?_⟩
  intro n hn
  unfold doautoscale at hn
  simp only [hs, hr] at hn
  split_ifs at hn with h1 h2
  · cases hu : a.updateScale (decidedReplicas d a state false pending replicas) <;>
      simp [hu] at hn <;> omega
  · exact absurd h2 (by simp)
  · simp at hn

/-- Witness of C4: two pods, current count 5, one pending replica: the ideal
count 3 is clamped to 5 and `UpdateScale` is not called. -/
theorem triggered_pass_never_scales_down_witness :
    (5 : Int) ≤ decidedReplicas depsEx (asEx twoPods 5 []) twoPods false 1 5 ∧
    ∀ n, Event.updateScale n ∈ (doautoscale depsEx (asEx twoPods 5 []) false 1).1 → (5 : Int) ≤ n :=
  triggered_pass_never_scales_down depsEx (asEx twoPods 5 []) twoPods 1 5 rfl rfl

/-- C5, as stated, fails: on a periodic pass with nothing pending, two pods
(`LastOrdinal = 1`) and `scaleUpFactor = 3` the decided replica count is 2,
below `LastOrdinal + scaleUpFactor = 4`. -/
theorem decided_below_lastOrdinal_plus_factor :
    scaleUpFactor depsEx twoPodsThreeZones = 3 ∧
    decidedReplicas depsEx (asEx twoPodsThreeZones 2 []) twoPodsThreeZones true 0 2 = 2 ∧
    ¬ (twoPodsThreeZones.LastOrdinal + scaleUpFactor depsEx twoPodsThreeZones
        ≤ decidedReplicas depsEx (asEx twoPodsThreeZones 2 []) twoPodsThreeZones true 0 2) := by
  decide

/-- C5, amended: with `Capacity ≥ 1`, `scaleUpFactor ≥ 1` and no `int32`
overflow, the decided replica count is at least `LastOrdinal + scaleUpFactor`
when `pending > 0`, and at least `LastOrdinal + 1` when `pending ≤ 0`. -/
theorem decided_ge_lastOrdinal_plus (d : Deps) (a : autoscaler) (state : State)
    (attemptScaleDown : Bool) (pending replicas : Int)
    (hc : 1 ≤ a.capacity) (hf : 1 ≤ scaleUpFactor d state)
    (hL : isInt32 state.LastOrdinal) (hL1 : state.LastOrdinal + 1 ≤ MaxInt32)
    (hk : 0 < pending →
      ceilDiv (ceilDiv pending a.capacity) (scaleUpFactor d state) * scaleUpFactor d state
        ≤ MaxInt32 ∧
      state.LastOrdinal + 1 +
        ceilDiv (ceilDiv pending a.capacity) (scaleUpFactor d state) * scaleUpFactor d state
        ≤ MaxInt32) :
    state.LastOrdinal + (if 0 < pending then scaleUpFactor d state else 1)
      ≤ decidedReplicas d a state attemptScaleDown pending replicas := by
  have hcl := le_clampReplicas attemptScaleDown
    (idealReplicas d a.capacity state (scaleUpFactor d state) pending) replicas
  unfold decidedReplicas
  by_cases hp : 0 < pending
  · obtain ⟨hk1, hk2⟩ := hk hp
    have hge := scaleUp_le_increment pending a.capacity (scaleUpFactor d state) hp
      (by omega) (by omega)
    rw [idealReplicas_of_pending d a.capacity state _ pending hp hc hf hL hk1 hk2] at hcl ⊢
    rw [if_pos hp]
    omega
  · rw [idealReplicas_of_not_pending d a.capacity state _ pending (by omega) hL hL1] at hcl ⊢
    rw [if_neg hp]
    omega

/-- Witness of amended C5: two pods, three zones, one pending replica on a
triggered pass with current count 2: the decided count is at least `1 + 3`. -/
theorem decided_ge_lastOrdinal_plus_witness :
    (1 : Int) + 3 ≤ decidedReplicas depsEx (asEx twoPodsThreeZones 2 []) twoPodsThreeZones
      false 1 2 :=
  decided_ge_lastOrdinal_plus depsEx (asEx twoPodsThreeZones 2 []) twoPodsThreeZones false 1 2
    (by decide) (by decide) (by decide) (by decide) (by decide)

/-! ## The autoscaler: compaction -/

/-- The inner loop of `compact` calls the evictor once when the placement is in
the trailing group, and not at all otherwise. -/
theorem compactOrdinals_loop (d : Deps) (a : autoscaler) (s : State) (scaleUpFactor : Int)
    (vpod : VPod) (placement : Placement)
    (hL : -1 ≤ s.LastOrdinal ∧ s.LastOrdinal ≤ MaxInt32) (hf : scaleUpFactor ≤ MaxInt32) :
    ∀ (n : Nat) (i : Int) (tr : List Event), 0 ≤ i → i + n = scaleUpFactor →
    compactOrdinals d a s scaleUpFactor vpod placement n i tr
      = if s.LastOrdinal - scaleUpFactor < d.OrdinalFromPodName placement.PodName ∧
          d.OrdinalFromPodName placement.PodName ≤ s.LastOrdinal - i
        then (tr ++ [Event.evict vpod placement], a.evictor tr vpod placement)
        else (tr, none) := by
  unfold MaxInt32 at hL hf
  intro n
  induction n with
  | zero =>
    intro i tr _ hin
    have : ¬ (s.LastOrdinal - scaleUpFactor < d.OrdinalFromPodName placement.PodName ∧
        d.OrdinalFromPodName placement.PodName ≤ s.LastOrdinal - i) := by
      push_cast at hin; omega
    simp [compactOrdinals, this]
  | succ n ih =>
    intro i tr hi hin
    push_cast at hin
    have hlt : i < scaleUpFactor := by omega
    have hw1 : wrap32 (s.LastOrdinal - i) = s.LastOrdinal - i := by
      unfold wrap32; omega
    have hw2 : wrap32 (i + 1) = i + 1 := by
      unfold wrap32; omega
    unfold compactOrdinals
    simp only [hlt, if_true, hw1, hw2]
    by_cases hord : d.OrdinalFromPodName placement.PodName = s.LastOrdinal - i
    · have hin' : s.LastOrdinal - scaleUpFactor < d.OrdinalFromPodName placement.PodName ∧
          d.OrdinalFromPodName placement.PodName ≤ s.LastOrdinal - i := by omega
      simp only [hord, if_true]
      rw [if_pos (by omega)]
      cases hev : a.evictor tr vpod placement with
      | some err => rfl
      | none =>
        simp only []
        rw [ih (i + 1) _ (by omega) (by omega)]
        rw [if_neg (by omega)]
    · simp only [hord, if_false]
      rw [ih (i + 1) tr (by omega) (by omega)]
      by_cases hc : s.LastOrdinal - scaleUpFactor < d.OrdinalFromPodName placement.PodName ∧
          d.OrdinalFromPodName placement.PodName ≤ s.LastOrdinal - i
      · rw [if_pos hc, if_pos (by omega)]
      · rw [if_neg hc, if_neg (by omega)]

/-- The loop of `compact` for one placement, from `i = 0`. -/
theorem compactOrdinals_eq (d : Deps) (a : autoscaler) (s : State) (scaleUpFactor : Int)
    (vpod : VPod) (placement : Placement) (tr : List Event)
    (hL : -1 ≤ s.LastOrdinal ∧ s.LastOrdinal ≤ MaxInt32) (hf : scaleUpFactor ≤ MaxInt32) :
    compactOrdinals d a s scaleUpFactor vpod placement scaleUpFactor.toNat 0 tr
      = if inTrailingGroup d s scaleUpFactor placement = true
        then (tr ++ [Event.evict vpod placement], a.evictor tr vpod placement)
        else (tr, none) := by
  by_cases h0 : 0 ≤ scaleUpFactor
  · rw [compactOrdinals_loop d a s scaleUpFactor vpod placement hL hf _ 0 tr (le_refl 0)
      (by rw [Int.toNat_of_nonneg h0]; ring)]
    unfold inTrailingGroup
    by_cases hc : s.LastOrdinal - scaleUpFactor < d.OrdinalFromPodName placement.PodName ∧
        d.OrdinalFromPodName placement.PodName ≤ s.LastOrdinal - 0
    · rw [if_pos hc, if_pos (by simp; omega)]
    · rw [if_neg hc, if_neg (by simp; omega)]
  · have hz : scaleUpFactor.toNat = 0 := by
      rw [Int.toNat_eq_zero]; omega
    rw [hz]
    unfold inTrailingGroup
    rw [if_neg (by simp; omega)]
    rfl

/-- When the evictions of the trailing group's placements of one VPod succeed,
these placements are evicted in order, once each. -/
theorem compactPlacements_ok (d : Deps) (a : autoscaler) (s : State) (scaleUpFactor : Int)
    (vpod : VPod) (hL : -1 ≤ s.LastOrdinal ∧ s.LastOrdinal ≤ MaxInt32)
    (hf : scaleUpFactor ≤ MaxInt32) :
    ∀ (placements : List Placement) (tr : List Event),
    (∀ tr' p, p ∈ placements → inTrailingGroup d s scaleUpFactor p = true →
      a.evictor tr' vpod p = none) →
    compactPlacements d a s scaleUpFactor vpod placements tr
      = (tr ++ (placements.filter (inTrailingGroup d s scaleUpFactor)).map (Event.evict vpod),
          none) := by
  intro placements
  induction placements with
  | nil => intro tr _; simp [compactPlacements]
  | cons p ps ih =>
    intro tr hev
    have hps : ∀ tr' q, q ∈ ps → inTrailingGroup d s scaleUpFactor q = true →
        a.evictor tr' vpod q = none :=
      fun tr' q hq => hev tr' q (List.mem_cons_of_mem _ hq)
    unfold compactPlacements
    rw [compactOrdinals_eq d a s scaleUpFactor vpod p tr hL hf]
    by_cases hin : inTrailingGroup d s scaleUpFactor p = true
    · rw [if_pos hin, hev tr p (List.mem_cons_self _ _) hin]
      simp only []
      rw [ih _ hps]
      simp [List.filter_cons, hin]
    · rw [if_neg hin]
      simp only []
      rw [ih _ hps]
      simp [List.filter_cons, hin]

/-- When every eviction of a trailing-group placement succeeds, `compact` evicts
the trailing group's placements in lister order then placement order, once each. -/
theorem compactVPods_ok (d : Deps) (a : autoscaler) (s : State) (scaleUpFactor : Int)
    (hL : -1 ≤ s.LastOrdinal ∧ s.LastOrdinal ≤ MaxInt32) (hf : scaleUpFactor ≤ MaxInt32) :
    ∀ (vpods : List VPod) (tr : List Event),
    (∀ tr' v p, v ∈ vpods → p ∈ v.placements → inTrailingGroup d s scaleUpFactor p = true →
      a.evictor tr' v p = none) →
    compactVPods d a s scaleUpFactor vpods tr
      = (tr ++ trailingEvictions d s scaleUpFactor vpods, none) := by
  intro vpods
  induction vpods with
  | nil => intro tr _; simp [compactVPods, trailingEvictions]
  | cons v vs ih =>
    intro tr hev
    have hvs : ∀ tr' w p, w ∈ vs → p ∈ w.placements →
        inTrailingGroup d s scaleUpFactor p = true → a.evictor tr' w p = none :=
      fun tr' w p hw hp => hev tr' w p (List.mem_cons_of_mem _ hw) hp
    unfold compactVPods
    rw [compactPlacements_ok d a s scaleUpFactor v hL hf v.placements tr
      (fun tr' p hp => hev tr' v p (List.mem_cons_self _ _) hp)]
    simp only []
    rw [ih _ hvs]
    simp [trailingEvictions, List.flatMap_cons]

/-- C9: for every list of VPods the lister returns and every
`scaleUpFactor ≥ 1`, when every eviction succeeds `compact` calls the lister
and then the evictor exactly once for each (VPod, placement) whose pod ordinal
lies in `LastOrdinal - scaleUpFactor + 1 .. LastOrdinal`, in lister order then
placement order, for no other placement, and returns no error. -/
theorem compact_evicts_trailing_group (d : Deps) (a : autoscaler) (s : State)
    (scaleUpFactor : Int) (vpods : List VPod)
    (hL : -1 ≤ s.LastOrdinal ∧ s.LastOrdinal ≤ MaxInt32)
    (hf : 1 ≤ scaleUpFactor ∧ scaleUpFactor ≤ MaxInt32)
    (hl : a.vpodLister = Except.ok vpods)
    (hev : ∀ tr v p, v ∈ vpods → p ∈ v.placements →
      inTrailingGroup d s scaleUpFactor p = true → a.evictor tr v p = none) :
    compact d a s scaleUpFactor
      = (Event.listVPods :: trailingEvictions d s scaleUpFactor vpods, none) := by
  unfold compact
  rw [hl]
  simp only []
  rw [compactVPods_ok d a s scaleUpFactor hL hf.2 vpods _ hev]
  rfl

/-- Witness of C9: three pods, `scaleUpFactor = 2`: of the placements on
`pod-0`, `pod-2` (first VPod) and `pod-1` (second VPod), those on `pod-2` and
`pod-1` are evicted, in this order. -/
theorem compact_evicts_trailing_group_witness :
    compact depsEx (asEx threePodsPacked 3 [vpodA, vpodB]) threePodsPacked 2
      = ([Event.listVPods, Event.evict vpodA ⟨"pod-2", 5⟩, Event.evict vpodB ⟨"pod-1", 5⟩],
          none) :=
  (compact_evicts_trailing_group depsEx (asEx threePodsPacked 3 [vpodA, vpodB]) threePodsPacked
    2 [vpodA, vpodB] (by decide) (by decide) rfl (fun _ _ _ _ _ _ => rfl)).trans (by decide)
theorem sum_range_bounds (f : Nat → Int) (c : Int) :
    ∀ n : Nat, (∀ i, i < n → 0 ≤ f i ∧ f i ≤ c) →
    0 ≤ ((List.range n).map f).sum ∧ ((List.range n).map f).sum ≤ n * c := by
  intro n
  induction n with
  | zero => intro _; simp
  | succ n ih =>
    intro h
    obtain ⟨h1, h2⟩ := ih (fun i hi => h i (by omega))
    obtain ⟨h3, h4⟩ := h n (by omega)
    rw [List.sum_range_succ]
    push_cast
    constructor
    · omega
    · linarith

/-- Under the data-model invariant the total free capacity does not overflow. -/
theorem FreeCapacity_bounds (s : State)
    (hFree : ∀ i, 0 ≤ i → i ≤ s.LastOrdinal → 0 ≤ Free s i ∧ Free s i ≤ s.Capacity)
    (hL : 0 ≤ s.LastOrdinal)
    (hCap : s.Capacity * (s.LastOrdinal + 1) ≤ MaxInt32) :
    FreeCapacity s
      = ((List.range (s.LastOrdinal + 1).toNat).map (fun (i : Nat) => Free s (i : Int))).sum ∧
    0 ≤ FreeCapacity s ∧ FreeCapacity s ≤ s.Capacity * (s.LastOrdinal + 1) := by
  have hb := sum_range_bounds (fun (i : Nat) => Free s (i : Int)) s.Capacity (s.LastOrdinal + 1).toNat
    (fun i hi => hFree i (by omega) (by omega))
  have hcast : (((s.LastOrdinal + 1).toNat : Nat) : Int) = s.LastOrdinal + 1 :=
    Int.toNat_of_nonneg (by omega)
  rw [hcast] at hb
  obtain ⟨h1, h2⟩ := hb
  have hmul : (s.LastOrdinal + 1) * s.Capacity = s.Capacity * (s.LastOrdinal + 1) := by ring
  have heq : FreeCapacity s
      = ((List.range (s.LastOrdinal + 1).toNat).map
          (fun (i : Nat) => Free s (i : Int))).sum := by
    unfold FreeCapacity
    apply wrap32_of_isInt32
    unfold isInt32 MinInt32
    unfold MaxInt32 at *
    unfold Free at h1 h2
    constructor <;> linarith
  rw [heq]
  exact ⟨rfl, h1, by linarith⟩

theorem trailingFree_nonneg (s : State)
    (hFree : ∀ i, 0 ≤ i → i ≤ s.LastOrdinal → 0 ≤ Free s i ∧ Free s i ≤ s.Capacity) :
    ∀ (n : Nat) (i : Int), 0 ≤ i → 0 ≤ trailingFree s n i := by
  intro n
  induction n with
  | zero => intro i _; simp [trailingFree]
  | succ n ih =>
    intro i hi
    unfold trailingFree
    split_ifs with h
    · have := (hFree (s.LastOrdinal - i) h (by omega)).1
      have := ih (i + 1) (by omega)
      omega
    · exact le_refl 0

theorem trailingFree_le (s : State)
    (hFree : ∀ i, 0 ≤ i → i ≤ s.LastOrdinal → 0 ≤ Free s i ∧ Free s i ≤ s.Capacity) :
    ∀ (n : Nat) (i : Int), 0 ≤ i → i ≤ s.LastOrdinal + 1 →
      trailingFree s n i ≤ s.Capacity * (s.LastOrdinal + 1 - i) := by
  intro n
  induction n with
  | zero =>
    intro i _ hi
    simp only [trailingFree]
    by_cases h0 : 0 ≤ s.LastOrdinal
    · have hc : 0 ≤ s.Capacity := le_trans (hFree 0 (le_refl 0) h0).1 (hFree 0 (le_refl 0) h0).2
      exact Int.mul_nonneg hc (by omega)
    · have : s.LastOrdinal + 1 - i = 0 := by omega
      rw [this]; simp
  | succ n ih =>
    intro i hi0 hi
    unfold trailingFree
    split_ifs with h
    · have h1 := (hFree (s.LastOrdinal - i) h (by omega)).2
      have h2 := ih (i + 1) (by omega) (by omega)
      have : s.Capacity * (s.LastOrdinal + 1 - i)
          = s.Capacity + s.Capacity * (s.LastOrdinal + 1 - (i + 1)) := by ring
      rw [this]
      linarith
    · have : s.LastOrdinal + 1 - i = 0 := by omega
      rw [this]; simp

/-- The loop of `mayCompact` subtracts the same `trailingFree` from both of its
accumulators when no `int32` operation overflows. -/
theorem trailingLoop_eq (s : State) (scaleUpFactor : Int)
    (hFree : ∀ i, 0 ≤ i → i ≤ s.LastOrdinal → 0 ≤ Free s i ∧ Free s i ≤ s.Capacity)
    (hL : -1 ≤ s.LastOrdinal ∧ s.LastOrdinal ≤ MaxInt32) (hf : scaleUpFactor ≤ MaxInt32) :
    ∀ (n : Nat) (i fc used : Int), 0 ≤ i → i + n = scaleUpFactor →
      MinInt32 ≤ fc - trailingFree s n i → fc ≤ MaxInt32 →
      MinInt32 ≤ used - trailingFree s n i → used ≤ MaxInt32 →
      trailingLoop s scaleUpFactor n i fc used
        = (fc - trailingFree s n i, used - trailingFree s n i) := by
  intro n
  induction n with
  | zero => intro i fc used _ _ _ _ _ _; simp [trailingLoop, trailingFree]
  | succ n ih =>
    intro i fc used hi hin hfc1 hfc2 hu1 hu2
    push_cast at hin
    unfold MinInt32 MaxInt32 at *
    have hlt : i < scaleUpFactor := by omega
    have hw1 : wrap32 (s.LastOrdinal - i) = s.LastOrdinal - i := by
      unfold wrap32; omega
    have hw2 : wrap32 (i + 1) = i + 1 := by
      unfold wrap32; omega
    unfold trailingLoop trailingFree
    rw [hw1, hw2]
    unfold trailingFree at hfc1 hu1
    by_cases h : 0 ≤ s.LastOrdinal - i
    · rw [if_pos h] at hfc1 hu1
      rw [if_pos ⟨hlt, h⟩, if_pos h]
      have hF := hFree (s.LastOrdinal - i) h (by omega)
      have hT := trailingFree_nonneg s hFree n (i + 1) (by omega)
      have hw3 : wrap32 (fc - Free s (s.LastOrdinal - i)) = fc - Free s (s.LastOrdinal - i) := by
        unfold wrap32; omega
      have hw4 : wrap32 (used - Free s (s.LastOrdinal - i))
          = used - Free s (s.LastOrdinal - i) := by
        unfold wrap32; omega
      rw [hw3, hw4, ih (i + 1) _ _ (by omega) (by omega) (by omega) (by omega) (by omega)
        (by omega)]
      congr 1 <;> ring
    · rw [if_neg (fun hc => h hc.2), if_neg h]
      simp

/-- Under the spread branch of `mayCompact`, without `int32` overflow, the
comparison after the loop is the comparison of the total free capacity with
`Capacity * scaleUpFactor`. -/
theorem mayCompact_spread_cond (d : Deps) (a : autoscaler) (s : State) (scaleUpFactor : Int)
    (hpol : s.SchedulerPolicy ≠ SchedulerPolicyType.MAXFILLUP) (hsp : s.SchedPolicy.isSome = true)
    (hL : 1 ≤ s.LastOrdinal ∧ s.LastOrdinal ≤ MaxInt32)
    (hf : 0 ≤ scaleUpFactor ∧ scaleUpFactor ≤ MaxInt32)
    (hFree : ∀ i, 0 ≤ i → i ≤ s.LastOrdinal → 0 ≤ Free s i ∧ Free s i ≤ s.Capacity)
    (hCap : s.Capacity * (s.LastOrdinal + 1) ≤ MaxInt32)
    (hCf : s.Capacity * scaleUpFactor ≤ MaxInt32) :
    mayCompact d a s scaleUpFactor
      = if FreeCapacity s ≥ s.Capacity * scaleUpFactor then (compact d a s scaleUpFactor).1
        else [] := by
  obtain ⟨_, hfc0, hfc1⟩ := FreeCapacity_bounds s hFree (by omega) hCap
  have hc : 0 ≤ s.Capacity := le_trans (hFree 0 (le_refl 0) (by omega)).1
    (hFree 0 (le_refl 0) (by omega)).2
  have hu0 : 0 ≤ s.Capacity * scaleUpFactor := Int.mul_nonneg hc hf.1
  have hT := trailingFree_le s hFree scaleUpFactor.toNat 0 (le_refl 0) (by omega)
  have hT0 := trailingFree_nonneg s hFree scaleUpFactor.toNat 0 (le_refl 0)
  have hw : wrap32 (s.Capacity * scaleUpFactor) = s.Capacity * scaleUpFactor := by
    apply wrap32_of_isInt32
    unfold isInt32 MinInt32
    constructor <;> omega
  have hloop := trailingLoop_eq s scaleUpFactor hFree ⟨by omega, hL.2⟩ hf.2 scaleUpFactor.toNat 0
    (FreeCapacity s) (s.Capacity * scaleUpFactor) (le_refl 0)
    (by rw [Int.toNat_of_nonneg hf.1]; ring)
    (by unfold MinInt32; unfold MaxInt32 at hCap; simp only [sub_zero] at hT; linarith)
    (by linarith)
    (by unfold MinInt32; unfold MaxInt32 at hCap; simp only [sub_zero] at hT; linarith)
    hCf
  unfold mayCompact
  rw [if_neg (by omega), if_neg hpol, if_pos hsp]
  simp only [hw, hloop]
  by_cases hcmp : FreeCapacity s ≥ s.Capacity * scaleUpFactor
  · rw [if_pos hcmp, if_pos (by linarith)]
  · rw [if_neg hcmp, if_neg (by intro h; apply hcmp; linarith)]

/-- A sum over the first `N` indices splits into the first `N - g` and the
last `g`, the latter counted from the top. -/
theorem sum_range_split_top (f : Nat → Int) (N : Nat) :
    ∀ g : Nat, g ≤ N →
    ((List.range N).map f).sum
      = ((List.range (N - g)).map f).sum
        + ((List.range g).map (fun (j : Nat) => f (N - 1 - j))).sum := by
  intro g
  induction g with
  | zero => intro _; simp
  | succ g ih =>
    intro hg
    have h1 : N - g = (N - (g + 1)) + 1 := by omega
    rw [ih (by omega), h1, List.sum_range_succ, List.sum_range_succ]
    have h2 : N - 1 - g = N - (g + 1) := by omega
    rw [h2]
    have h3 : N - (g + 1) + 1 - 1 = N - (g + 1) := by omega
    ring

/-- The sum of `Free` over the trailing group plus the group's used capacity is
`Capacity` times the size of the group, when the whole group exists. -/
theorem usedInside_eq (s : State) :
    ∀ g : Nat, (g : Int) ≤ s.LastOrdinal + 1 →
    usedInside s g
      = s.Capacity * g
        - ((List.range g).map (fun (j : Nat) => Free s (s.LastOrdinal - (j : Int)))).sum := by
  intro g
  induction g with
  | zero => intro _; simp [usedInside]
  | succ g ih =>
    intro hg
    push_cast at hg
    have ih' := ih (by omega)
    unfold usedInside at ih' ⊢
    rw [List.sum_range_succ, List.sum_range_succ, ih', if_pos (by omega)]
    push_cast
    ring

/-- The total free capacity is the free capacity outside the trailing group
plus the free capacity inside it, when the whole group exists. -/
theorem freeOutside_add (s : State) (g : Nat) (hL : 0 ≤ s.LastOrdinal)
    (hg : (g : Int) ≤ s.LastOrdinal + 1) :
    ((List.range (s.LastOrdinal + 1).toNat).map (fun (i : Nat) => Free s (i : Int))).sum
      = freeOutside s g
        + ((List.range g).map (fun (j : Nat) => Free s (s.LastOrdinal - (j : Int)))).sum := by
  have hN : (((s.LastOrdinal + 1).toNat : Nat) : Int) = s.LastOrdinal + 1 :=
    Int.toNat_of_nonneg (by omega)
  rw [sum_range_split_top (fun (i : Nat) => Free s (i : Int)) (s.LastOrdinal + 1).toNat g
    (by omega)]
  unfold freeOutside
  congr 2
  apply List.map_congr_left
  intro j hj
  rw [List.mem_range] at hj
  have : (((s.LastOrdinal + 1).toNat - 1 - j : Nat) : Int) = s.LastOrdinal - (j : Int) := by
    omega
  simp only [this]

/-- When the lister and every eviction succeed, the trace of `compact` is the
lister call followed by the evictions of the trailing group. -/
theorem compact_of_success (d : Deps) (a : autoscaler) (s : State)
    (scaleUpFactor : Int) (vpods : List VPod)
    (hL : -1 ≤ s.LastOrdinal ∧ s.LastOrdinal ≤ MaxInt32) (hf : scaleUpFactor ≤ MaxInt32)
    (hl : a.vpodLister = Except.ok vpods)
    (hev : ∀ tr v p, v ∈ vpods → p ∈ v.placements →
      inTrailingGroup d s scaleUpFactor p = true → a.evictor tr v p = none) :
    compact d a s scaleUpFactor
      = (Event.listVPods :: trailingEvictions d s scaleUpFactor vpods, none) := by
  unfold compact
  rw [hl]
  simp only []
  rw [compactVPods_ok d a s scaleUpFactor hL hf vpods _ hev]
  rfl

/-- A placement of the trailing group is among the evictions of the specification. -/
theorem mem_trailingEvictions (d : Deps) (s : State) (scaleUpFactor : Int) (vpods : List VPod)
    (v : VPod) (p : Placement) (hv : v ∈ vpods) (hp : p ∈ v.placements)
    (hin : inTrailingGroup d s scaleUpFactor p = true) :
    Event.evict v p ∈ trailingEvictions d s scaleUpFactor vpods := by
  unfold trailingEvictions
  rw [List.mem_flatMap]
  refine ⟨v, hv, ?_⟩
  rw [List.mem_map]
  exact ⟨p, List.mem_filter.mpr ⟨hp, hin⟩, rfl⟩

/-- C6, as stated, fails: with a single, entirely free pod under the
pack-tightest policy the inequality holds (`0 ≥ 0`), yet `mayCompact` calls
neither the lister nor the evictor, although a placement is on the last pod
(`compact` would evict it). -/
theorem mayCompact_single_pod_no_eviction :
    FreeCapacity onePodFree - Free onePodFree onePodFree.LastOrdinal
      ≥ onePodFree.Capacity - Free onePodFree onePodFree.LastOrdinal ∧
    mayCompact depsEx (asEx onePodFree 1 [vpodOnPod0]) onePodFree 1 = [] ∧
    (compact depsEx (asEx onePodFree 1 [vpodOnPod0]) onePodFree 1).1
      = [Event.listVPods, Event.evict vpodOnPod0 ⟨"pod-0", 0⟩] := by
  decide

/-- C6, amended: under the pack-tightest policy, for every snapshot with at
least two pods that satisfies the data-model invariant `0 ≤ Free ≤ Capacity`
and whose total capacity fits `int32`, `mayCompact` runs `compact` if
`FreeCapacity - Free(LastOrdinal) ≥ Capacity - Free(LastOrdinal)` and otherwise
calls neither the lister nor the evictor; when it runs `compact` with
`scaleUpFactor ≥ 1` and the lister and the evictions succeed, every placement
on the last pod is evicted. -/
theorem mayCompact_maxfillup (d : Deps) (a : autoscaler) (s : State) (scaleUpFactor : Int)
    (hpol : s.SchedulerPolicy = SchedulerPolicyType.MAXFILLUP)
    (hL : 1 ≤ s.LastOrdinal ∧ s.LastOrdinal ≤ MaxInt32)
    (hFree : ∀ i, 0 ≤ i → i ≤ s.LastOrdinal → 0 ≤ Free s i ∧ Free s i ≤ s.Capacity)
    (hCap : s.Capacity * (s.LastOrdinal + 1) ≤ MaxInt32) :
    mayCompact d a s scaleUpFactor
      = (if FreeCapacity s - Free s s.LastOrdinal ≥ s.Capacity - Free s s.LastOrdinal
         then (compact d a s scaleUpFactor).1 else []) ∧
    (FreeCapacity s - Free s s.LastOrdinal ≥ s.Capacity - Free s s.LastOrdinal →
      1 ≤ scaleUpFactor → scaleUpFactor ≤ MaxInt32 →
      ∀ vpods, a.vpodLister = Except.ok vpods →
      (∀ tr v p, v ∈ vpods → p ∈ v.placements →
        inTrailingGroup d s scaleUpFactor p = true → a.evictor tr v p = none) →
      ∀ v p, v ∈ vpods → p ∈ v.placements →
        d.OrdinalFromPodName p.PodName = s.LastOrdinal →
        Event.evict v p ∈ mayCompact d a s scaleUpFactor) := by
  obtain ⟨_, hfc0, hfc1⟩ := FreeCapacity_bounds s hFree (by omega) hCap
  obtain ⟨hF0, hF1⟩ := hFree s.LastOrdinal (by omega) (le_refl _)
  have hc : 0 ≤ s.Capacity := le_trans hF0 hF1
  have hcm : s.Capacity ≤ MaxInt32 := by
    have : s.Capacity * 1 ≤ s.Capacity * (s.LastOrdinal + 1) :=
      Int.mul_le_mul_of_nonneg_left (by omega) hc
    linarith
  have hw1 : wrap32 (FreeCapacity s - Free s s.LastOrdinal)
      = FreeCapacity s - Free s s.LastOrdinal := by
    apply wrap32_of_isInt32
    unfold isInt32 MinInt32
    unfold MaxInt32 at *
    constructor <;> linarith
  have hw2 : wrap32 (s.Capacity - Free s s.LastOrdinal) = s.Capacity - Free s s.LastOrdinal := by
    apply wrap32_of_isInt32
    unfold isInt32 MinInt32
    unfold MaxInt32 at *
    constructor <;> linarith
  have heq : mayCompact d a s scaleUpFactor
      = (if FreeCapacity s - Free s s.LastOrdinal ≥ s.Capacity - Free s s.LastOrdinal
         then (compact d a s scaleUpFactor).1 else []) := by
    unfold mayCompact
    rw [if_neg (by omega), if_pos hpol]
    simp only [hw1, hw2]
  refine ⟨heq, ?_⟩
  intro hineq hf1 hf2 vpods hl hev v p hv hp hord
  rw [heq, if_pos hineq,
    compact_of_success d a s scaleUpFactor vpods ⟨by omega, hL.2⟩ hf2 hl hev]
  apply List.mem_cons_of_mem
  apply mem_trailingEvictions d s scaleUpFactor vpods v p hv hp
  unfold inTrailingGroup
  simp only [decide_eq_true_eq]
  omega

/-- Witness of amended C6: three pods with free capacities `[9, 5, 5]`: the
inequality holds (`14 ≥ 5`) and the placement on the last pod is evicted. -/
theorem mayCompact_maxfillup_witness :
    Event.evict vpodA ⟨"pod-2", 5⟩
      ∈ mayCompact depsEx (asEx threePodsPacked 3 [vpodA, vpodB]) threePodsPacked 1 :=
  (mayCompact_maxfillup depsEx (asEx threePodsPacked 3 [vpodA, vpodB]) threePodsPacked 1 rfl
    (by decide) (by intro i h0 h2; unfold threePodsPacked stEx Free at *; simp only at *; split_ifs <;> omega) (by decide)).2
    (by decide) (by decide) (by decide) [vpodA, vpodB] rfl (fun _ _ _ _ _ _ => rfl)
    vpodA ⟨"pod-2", 5⟩ (by decide) (by decide) (by decide)

/-- C7, as stated, fails: two entirely free pods under the spread policy with
`scaleUpFactor = 3`: no pod is outside the trailing group and nothing is used
inside it, so the slack suffices (`0 ≥ 0`), yet `mayCompact` calls neither the
lister nor the evictor, although a placement is on a pod of the group
(`compact` would evict it): the pod the group lacks counts as fully used. -/
theorem mayCompact_group_beyond_pool_no_eviction :
    scaleUpFactor depsEx twoPodsFree = 3 ∧
    freeOutside twoPodsFree 3 ≥ usedInside twoPodsFree 3 ∧
    mayCompact depsEx (asEx twoPodsFree 2 [vpodOnPod1]) twoPodsFree 3 = [] ∧
    (compact depsEx (asEx twoPodsFree 2 [vpodOnPod1]) twoPodsFree 3).1
      = [Event.listVPods, Event.evict vpodOnPod1 ⟨"pod-1", 0⟩] := by
  decide

/-- C7, amended: under the spread policy, for every snapshot with at least two
pods that satisfies the data-model invariant `0 ≤ Free ≤ Capacity` and whose
total capacity fits `int32`, and every `scaleUpFactor` between 1 and the number
of pods, `mayCompact` runs `compact` if the sum of `Free` over the pods outside
the trailing group is at least the sum of `Capacity - Free` over the pods
inside it, and otherwise calls neither the lister nor the evictor; when it
runs `compact` and the lister and the evictions succeed, exactly the trailing
group's placements are evicted. -/
theorem mayCompact_spread (d : Deps) (a : autoscaler) (s : State) (scaleUpFactor : Int)
    (hpol : s.SchedulerPolicy ≠ SchedulerPolicyType.MAXFILLUP)
    (hsp : s.SchedPolicy.isSome = true)
    (hL : 1 ≤ s.LastOrdinal ∧ s.LastOrdinal ≤ MaxInt32)
    (hf : 1 ≤ scaleUpFactor ∧ scaleUpFactor ≤ s.LastOrdinal + 1)
    (hfm : scaleUpFactor ≤ MaxInt32)
    (hFree : ∀ i, 0 ≤ i → i ≤ s.LastOrdinal → 0 ≤ Free s i ∧ Free s i ≤ s.Capacity)
    (hCap : s.Capacity * (s.LastOrdinal + 1) ≤ MaxInt32) :
    mayCompact d a s scaleUpFactor
      = (if freeOutside s scaleUpFactor.toNat ≥ usedInside s scaleUpFactor.toNat
         then (compact d a s scaleUpFactor).1 else []) ∧
    (freeOutside s scaleUpFactor.toNat ≥ usedInside s scaleUpFactor.toNat →
      ∀ vpods, a.vpodLister = Except.ok vpods →
      (∀ tr v p, v ∈ vpods → p ∈ v.placements →
        inTrailingGroup d s scaleUpFactor p = true → a.evictor tr v p = none) →
      mayCompact d a s scaleUpFactor
        = Event.listVPods :: trailingEvictions d s scaleUpFactor vpods) := by
  obtain ⟨hfc, _, _⟩ := FreeCapacity_bounds s hFree (by omega) hCap
  have hc : 0 ≤ s.Capacity := le_trans (hFree 0 (le_refl 0) (by omega)).1
    (hFree 0 (le_refl 0) (by omega)).2
  have hg : ((scaleUpFactor.toNat : Nat) : Int) = scaleUpFactor := Int.toNat_of_nonneg (by omega)
  have hCf : s.Capacity * scaleUpFactor ≤ MaxInt32 := by
    have : s.Capacity * scaleUpFactor ≤ s.Capacity * (s.LastOrdinal + 1) :=
      Int.mul_le_mul_of_nonneg_left hf.2 hc
    linarith
  have hcond := mayCompact_spread_cond d a s scaleUpFactor hpol hsp hL ⟨by omega, hfm⟩ hFree
    hCap hCf
  have hsplit := freeOutside_add s scaleUpFactor.toNat (by omega) (by omega)
  have hused := usedInside_eq s scaleUpFactor.toNat (by omega)
  rw [hg] at hused
  have hiff : FreeCapacity s ≥ s.Capacity * scaleUpFactor ↔
      freeOutside s scaleUpFactor.toNat ≥ usedInside s scaleUpFactor.toNat := by
    rw [hfc, hsplit, hused]
    constructor <;> intro h <;> linarith
  have heq : mayCompact d a s scaleUpFactor
      = (if freeOutside s scaleUpFactor.toNat ≥ usedInside s scaleUpFactor.toNat
         then (compact d a s scaleUpFactor).1 else []) := by
    rw [hcond]
    by_cases h : FreeCapacity s ≥ s.Capacity * scaleUpFactor
    · rw [if_pos h, if_pos (hiff.mp h)]
    · rw [if_neg h, if_neg (fun h' => h (hiff.mpr h'))]
  refine ⟨heq, ?_⟩
  intro hineq vpods hl hev
  rw [heq, if_pos hineq,
    compact_of_success d a s scaleUpFactor vpods ⟨by omega, hL.2⟩ hfm hl hev]

/-- Witness of amended C7: four pods with free capacities `[10, 10, 6, 6]` and
`scaleUpFactor = 2`: the slack outside the group (20) covers what is used
inside it (8), and the two placements of the group are evicted. -/
theorem mayCompact_spread_witness :
    mayCompact depsEx (asEx fourPodsSpread 4 [vpodC]) fourPodsSpread 2
      = [Event.listVPods, Event.evict vpodC ⟨"pod-2", 4⟩, Event.evict vpodC ⟨"pod-3", 4⟩] :=
  ((mayCompact_spread depsEx (asEx fourPodsSpread 4 [vpodC]) fourPodsSpread 2 (by decide) rfl
    (by decide) (by decide) (by decide)
    (by intro i h0 h2; unfold fourPodsSpread stEx Free at *; simp only at *; split_ifs <;> omega)
    (by decide)).2 (by decide) [vpodC] rfl (fun _ _ _ _ _ _ => rfl)).trans (by decide)

/-- C8: under the pack-tightest policy with a zone-spread policy over two zones
also set (`scaleUpFactor = 2`), a periodic pass over three pods with free
capacities `[9, 5, 5]` finds enough slack for the last pod (`14 ≥ 5`) and
evicts the placement on `pod-2` and also the placement on `pod-1`, whose
ordinal 1 is below `LastOrdinal = 2`. -/
theorem maxfillup_evicts_below_last_pod :
    threePodsPacked.SchedulerPolicy = SchedulerPolicyType.MAXFILLUP ∧
    threePodsPacked.LastOrdinal = 2 ∧
    scaleUpFactor depsEx threePodsPacked = 2 ∧
    doautoscale depsEx (asEx threePodsPacked 3 [vpodA, vpodB]) true 0
      = ([Event.mayCompact, Event.listVPods, Event.evict vpodA ⟨"pod-2", 5⟩,
          Event.evict vpodB ⟨"pod-1", 5⟩], none) ∧
    depsEx.OrdinalFromPodName "pod-1" = 1 := by
  decide

/-! ## The autoscaler: one pass -/

theorem compactOrdinals_calls (d : Deps) (a : autoscaler) (s : State) (scaleUpFactor : Int)
    (vpod : VPod) (placement : Placement) :
    ∀ (n : Nat) (i : Int) (tr : List Event), (∀ e ∈ tr, isCompactionCall e) →
    ∀ e ∈ (compactOrdinals d a s scaleUpFactor vpod placement n i tr).1, isCompactionCall e := by
  intro n
  induction n with
  | zero => intro i tr h; simpa [compactOrdinals] using h
  | succ n ih =>
    intro i tr h
    have h' : ∀ e ∈ tr ++ [Event.evict vpod placement], isCompactionCall e := by
      intro e he
      rw [List.mem_append] at he
      cases he with
      | inl he => exact h e he
      | inr he =>
        rw [List.mem_singleton] at he
        rw [he]
        trivial
    simp only [compactOrdinals]
    split
    · split
      · split
        · exact h'
        · exact ih _ _ h'
      · exact ih _ _ h
    · exact h

theorem compactPlacements_calls (d : Deps) (a : autoscaler) (s : State) (scaleUpFactor : Int)
    (vpod : VPod) :
    ∀ (placements : List Placement) (tr : List Event), (∀ e ∈ tr, isCompactionCall e) →
    ∀ e ∈ (compactPlacements d a s scaleUpFactor vpod placements tr).1, isCompactionCall e := by
  intro placements
  induction placements with
  | nil => intro tr h; simpa [compactPlacements] using h
  | cons p ps ih =>
    intro tr h
    have h1 := compactOrdinals_calls d a s scaleUpFactor vpod p scaleUpFactor.toNat 0 tr h
    unfold compactPlacements
    rcases hres : compactOrdinals d a s scaleUpFactor vpod p scaleUpFactor.toNat 0 tr
      with ⟨tr', _ | err⟩
    · rw [hres] at h1
      exact ih tr' h1
    · rw [hres] at h1
      exact h1

theorem compactVPods_calls (d : Deps) (a : autoscaler) (s : State) (scaleUpFactor : Int) :
    ∀ (vpods : List VPod) (tr : List Event), (∀ e ∈ tr, isCompactionCall e) →
    ∀ e ∈ (compactVPods d a s scaleUpFactor vpods tr).1, isCompactionCall e := by
  intro vpods
  induction vpods with
  | nil => intro tr h; simpa [compactVPods] using h
  | cons v vs ih =>
    intro tr h
    have h1 := compactPlacements_calls d a s scaleUpFactor v v.placements tr h
    unfold compactVPods
    rcases hres : compactPlacements d a s scaleUpFactor v v.placements tr with ⟨tr', _ | err⟩
    · rw [hres] at h1
      exact ih tr' h1
    · rw [hres] at h1
      exact h1

/-- The trace of `mayCompact` consists of lister and evictor calls only. -/
theorem mayCompact_calls (d : Deps) (a : autoscaler) (s : State) (scaleUpFactor : Int) :
    ∀ e ∈ mayCompact d a s scaleUpFactor, isCompactionCall e := by
  have hc : ∀ e ∈ (compact d a s scaleUpFactor).1, isCompactionCall e := by
    unfold compact
    cases hl : a.vpodLister with
    | error err =>
      intro e he
      simp only [List.mem_singleton] at he
      rw [he]; trivial
    | ok vpods =>
      apply compactVPods_calls
      intro e he
      simp only [List.mem_singleton] at he
      rw [he]; trivial
  simp only [mayCompact]
  split_ifs <;> first | exact hc | (intro e he; simp at he)

/-- C10: in a pass that obtains a snapshot and the current scale, the trace is
the single call `UpdateScale(decided)` when the decided count differs from the
current one, the compaction attempt when the counts are equal on a periodic
pass, and empty otherwise.  So `UpdateScale` is called iff the counts differ,
compaction is attempted iff they are equal and the pass is periodic, no pass
both resizes and evicts, and a pending-triggered pass never evicts. -/
theorem doautoscale_resize_or_compact (d : Deps) (a : autoscaler) (state : State)
    (attemptScaleDown : Bool) (pending replicas : Int)
    (hs : a.stateAccessor = Except.ok state) (hr : a.getScale = Except.ok replicas) :
    (doautoscale d a attemptScaleDown pending).1
      = (if decidedReplicas d a state attemptScaleDown pending replicas ≠ replicas then
          [Event.updateScale (decidedReplicas d a state attemptScaleDown pending replicas)]
        else if attemptScaleDown = true then
          Event.mayCompact :: mayCompact d a state (scaleUpFactor d state)
        else []) ∧
    (∀ m, Event.updateScale m ∈ (doautoscale d a attemptScaleDown pending).1 ↔
      (decidedReplicas d a state attemptScaleDown pending replicas ≠ replicas ∧
        m = decidedReplicas d a state attemptScaleDown pending replicas)) ∧
    (Event.mayCompact ∈ (doautoscale d a attemptScaleDown pending).1 ↔
      (decidedReplicas d a state attemptScaleDown pending replicas = replicas ∧
        attemptScaleDown = true)) ∧
    (∀ m v p, ¬ (Event.updateScale m ∈ (doautoscale d a attemptScaleDown pending).1 ∧
      Event.evict v p ∈ (doautoscale d a attemptScaleDown pending).1)) ∧
    (attemptScaleDown = false →
      ∀ v p, Event.evict v p ∉ (doautoscale d a attemptScaleDown pending).1) := by
  have hmc := mayCompact_calls d a state (scaleUpFactor d state)
  have htrace : (doautoscale d a attemptScaleDown pending).1
      = (if decidedReplicas d a state attemptScaleDown pending replicas ≠ replicas then
          [Event.updateScale (decidedReplicas d a state attemptScaleDown pending replicas)]
        else if attemptScaleDown = true then
          Event.mayCompact :: mayCompact d a state (scaleUpFactor d state)
        else []) := by
    unfold doautoscale
    simp only [hs, hr]
    split_ifs with h1 h2
    · cases hu : a.updateScale (decidedReplicas d a state attemptScaleDown pending replicas) <;>
        rfl
    · rfl
    · rfl
  have hnu : ∀ m, Event.updateScale m ∉ mayCompact d a state (scaleUpFactor d state) :=
    fun m hm => hmc _ hm
  have hnm : Event.mayCompact ∉ mayCompact d a state (scaleUpFactor d state) :=
    fun hm => hmc _ hm
  refine ⟨htrace, ?_, ?_, ?_, ?_⟩
  · intro m
    rw [htrace]
    split_ifs with h1 h2
    · simp [h1]
    · simp [h1, hnu m]
    · simp [h1]
  · rw [htrace]
    split_ifs with h1 h2
    · simp [h1]
    · simp only [ne_eq, not_not] at h1
      exact ⟨fun _ => ⟨h1, h2⟩, fun _ => List.mem_cons_self _ _⟩
    · simp [h2]
  · intro m v p
    rw [htrace]
    split_ifs with h1 h2
    · simp
    · simp [hnu m]
    · simp
  · intro hfalse v p
    rw [htrace]
    split_ifs with h1 h2
    · simp
    · rw [hfalse] at h2
      exact absurd h2 (by simp)
    · simp

/-- Witness of C10: a periodic pass over four pods with current count 4
decides 4 and compacts; the same pass with current count 6 only calls
`UpdateScale(4)`. -/
theorem doautoscale_resize_or_compact_witness :
    (doautoscale depsEx (asEx fourPodsSpread 4 [vpodC]) true 0).1
      = [Event.mayCompact, Event.listVPods, Event.evict vpodC ⟨"pod-2", 4⟩,
          Event.evict vpodC ⟨"pod-3", 4⟩] ∧
    (doautoscale depsEx (asEx fourPodsSpread 6 [vpodC]) true 0).1 = [Event.updateScale 4] :=
  ⟨(doautoscale_resize_or_compact depsEx (asEx fourPodsSpread 4 [vpodC]) fourPodsSpread true 0 4
      rfl rfl).1.trans (by decide),
   (doautoscale_resize_or_compact depsEx (asEx fourPodsSpread 6 [vpodC]) fourPodsSpread true 0 6
      rfl rfl).1.trans (by decide)⟩

/-! ## The autoscaler: scale-up factor, bounds and failures -/

/-- The loop of `contains` finds a name iff a priority of the list carries it. -/
theorem contains_iff (priors : List PriorityPolicy) (name : String) :
    contains priors name = true ↔ ∃ v ∈ priors, v.Name = name := by
  induction priors with
  | nil => simp [contains]
  | cons v vs ih =>
    unfold contains
    by_cases h : v.Name = name
    · simp [h]
    · simp [h, ih]

/-- C11: the scale-up factor is `NumZones` when `SchedPolicy` is set and its
priorities contain the availability-zone priority (whether or not they contain
the node priority); otherwise `NumNodes` when `SchedPolicy` is set and its
priorities contain the availability-node priority; otherwise, also when
`SchedPolicy` is unset, 1. -/
theorem scaleUpFactor_cases (d : Deps) (state : State) :
    (∀ policy, state.SchedPolicy = some policy →
      (∃ v ∈ policy.Priorities, v.Name = d.AvailabilityZonePriority) →
      scaleUpFactor d state = state.NumZones) ∧
    (∀ policy, state.SchedPolicy = some policy →
      (¬ ∃ v ∈ policy.Priorities, v.Name = d.AvailabilityZonePriority) →
      (∃ v ∈ policy.Priorities, v.Name = d.AvailabilityNodePriority) →
      scaleUpFactor d state = state.NumNodes) ∧
    (∀ policy, state.SchedPolicy = some policy →
      (¬ ∃ v ∈ policy.Priorities, v.Name = d.AvailabilityZonePriority) →
      (¬ ∃ v ∈ policy.Priorities, v.Name = d.AvailabilityNodePriority) →
      scaleUpFactor d state = 1) ∧
    (state.SchedPolicy = none → scaleUpFactor d state = 1) := by
  refine ⟨?_, ?_, ?_, ?_⟩
  · intro policy hp hz
    have : hasPriority state d.AvailabilityZonePriority = true := by
      unfold hasPriority; rw [hp]; exact (contains_iff _ _).mpr hz
    unfold scaleUpFactor
    rw [if_pos this]
  · intro policy hp hz hn
    have h1 : ¬ hasPriority state d.AvailabilityZonePriority = true := by
      unfold hasPriority; rw [hp]; exact fun h => hz ((contains_iff _ _).mp h)
    have h2 : hasPriority state d.AvailabilityNodePriority = true := by
      unfold hasPriority; rw [hp]; exact (contains_iff _ _).mpr hn
    unfold scaleUpFactor
    rw [if_neg h1, if_pos h2]
  · intro policy hp hz hn
    have h1 : ¬ hasPriority state d.AvailabilityZonePriority = true := by
      unfold hasPriority; rw [hp]; exact fun h => hz ((contains_iff _ _).mp h)
    have h2 : ¬ hasPriority state d.AvailabilityNodePriority = true := by
      unfold hasPriority; rw [hp]; exact fun h => hn ((contains_iff _ _).mp h)
    unfold scaleUpFactor
    rw [if_neg h1, if_neg h2]
  · intro hp
    unfold scaleUpFactor hasPriority
    rw [hp]
    simp

/-- Witness of C11: a policy listing the node priority and then the zone
priority, with three zones and five nodes, gives the factor 3. -/
theorem scaleUpFactor_cases_witness :
    scaleUpFactor depsEx twoPodsZonesAndNodes = 3 :=
  (scaleUpFactor_cases depsEx twoPodsZonesAndNodes).1 ⟨[⟨"AvailabilityNodePriority"⟩,
    ⟨"AvailabilityZonePriority"⟩]⟩ rfl ⟨⟨"AvailabilityZonePriority"⟩, by decide, rfl⟩

/-- C12: when the argument is not a string, or is a string that fails to
decode, `Score` returns score 0 and `Unschedulable` with the reason
"invalid arguments", for every state, key and candidate ordinal; and `Score`
returns `Unschedulable` in these two cases only. -/
theorem Score_invalid_arguments (decode : String → Option Int) (fuel : Nat) (args : Args)
    (states : State) (key : NamespacedName) (podID : Int) :
    ((args = Args.notString ∨ ∃ spreadArgs, args = Args.str spreadArgs ∧
        decode spreadArgs = none) →
      Score decode fuel args states key podID
        = some (0, NewStatus Code.Unschedulable ["invalid arguments"])) ∧
    (∀ score status, Score decode fuel args states key podID = some (score, status) →
      status.code = Code.Unschedulable →
      (args = Args.notString ∨ ∃ spreadArgs, args = Args.str spreadArgs ∧
        decode spreadArgs = none)) := by
  constructor
  · rintro (h | ⟨s, hs, hd⟩)
    · subst h; rfl
    · subst hs
      simp [Score, hd, ErrReasonInvalidArg]
  · intro score status hsc hcode
    cases args with
    | notString => exact Or.inl rfl
    | str s =>
      right
      refine ⟨s, rfl, ?_⟩
      cases hd : decode s with
      | none => rfl
      | some m =>
        exfalso
        unfold Score at hsc
        simp only [hd] at hsc
        split_ifs at hsc with hL
        · cases hloop : scoreLoop states key podID
              (states.PodSpread key (PodNameFromOrdinal states.StatefulSetName podID)) fuel 0 0 with
          | none => simp [hloop] at hsc
          | some sc =>
            simp only [hloop, Option.some.injEq, Prod.mk.injEq] at hsc
            rw [← hsc.2] at hcode
            simp [NewStatus] at hcode
        · simp only [Option.some.injEq, Prod.mk.injEq] at hsc
          rw [← hsc.2] at hcode
          simp [NewStatus] at hcode

/-- Witness of C12: the test case "no vpods, no pods, bad arg". -/
theorem Score_invalid_arguments_witness :
    Score decodeExample 0 (Args.str "\x7b\"MaxSkewness\": 2\x7d")
        (spreadState (-1) (fun _ => 0)) ⟨"", ""⟩ 0
      = some (0, NewStatus Code.Unschedulable ["invalid arguments"]) :=
  (Score_invalid_arguments decodeExample 0 (Args.str "\x7b\"MaxSkewness\": 2\x7d")
    (spreadState (-1) (fun _ => 0)) ⟨"", ""⟩ 0).1
    (Or.inr ⟨"\x7b\"MaxSkewness\": 2\x7d", rfl, by decide⟩)

/-- C15: when the snapshot fetch fails, or the read of the current scale fails,
`doautoscale` returns that error and makes no call (neither `UpdateScale` nor
the lister nor the evictor); when `UpdateScale` is called and fails,
`doautoscale` returns its error and the only call of the pass is that
`UpdateScale`. -/
theorem doautoscale_failures (d : Deps) (a : autoscaler) (attemptScaleDown : Bool)
    (pending : Int) :
    (∀ err, a.stateAccessor = Except.error err →
      doautoscale d a attemptScaleDown pending = ([], some err)) ∧
    (∀ state err, a.stateAccessor = Except.ok state → a.getScale = Except.error err →
      doautoscale d a attemptScaleDown pending = ([], some err)) ∧
    (∀ state replicas err, a.stateAccessor = Except.ok state →
      a.getScale = Except.ok replicas →
      decidedReplicas d a state attemptScaleDown pending replicas ≠ replicas →
      a.updateScale (decidedReplicas d a state attemptScaleDown pending replicas) = some err →
      doautoscale d a attemptScaleDown pending
        = ([Event.updateScale (decidedReplicas d a state attemptScaleDown pending replicas)],
            some err)) := by
  refine ⟨?_, ?_, ?_⟩
  · intro err hs
    unfold doautoscale
    rw [hs]
  · intro state err hs hr
    unfold doautoscale
    rw [hs, hr]
  · intro state replicas err hs hr hne hu
    unfold doautoscale
    rw [hs, hr]
    simp only [hne, if_true, ne_eq, not_false_eq_true, hu]

/-- Witness of C15: two pods, current count 5, periodic pass: the decided count
2 differs, `UpdateScale(2)` fails, and the pass returns that error after this
single call. -/
theorem doautoscale_failures_witness :
    doautoscale depsEx (asUpdateFails twoPods 5) true 0
      = ([Event.updateScale 2], some "update refused") :=
  ((doautoscale_failures depsEx (asUpdateFails twoPods 5) true 0).2.2 twoPods 5
    "update refused" rfl rfl (by decide) (by decide)).trans (by decide)

/-- C17: for every pass, periodic or triggered, with `Capacity ≥ 1`,
`scaleUpFactor ≥ 1` and no `int32` overflow, the decided replica count is at
least `LastOrdinal + 1`. -/
theorem decided_ge_lastOrdinal_succ (d : Deps) (a : autoscaler) (state : State)
    (attemptScaleDown : Bool) (pending replicas : Int)
    (hc : 1 ≤ a.capacity) (hf : 1 ≤ scaleUpFactor d state)
    (hL : isInt32 state.LastOrdinal) (hL1 : state.LastOrdinal + 1 ≤ MaxInt32)
    (hk : 0 < pending →
      ceilDiv (ceilDiv pending a.capacity) (scaleUpFactor d state) * scaleUpFactor d state
        ≤ MaxInt32 ∧
      state.LastOrdinal + 1 +
        ceilDiv (ceilDiv pending a.capacity) (scaleUpFactor d state) * scaleUpFactor d state
        ≤ MaxInt32) :
    state.LastOrdinal + 1 ≤ decidedReplicas d a state attemptScaleDown pending replicas := by
  have hcl := le_clampReplicas attemptScaleDown
    (idealReplicas d a.capacity state (scaleUpFactor d state) pending) replicas
  unfold decidedReplicas
  by_cases hp : 0 < pending
  · obtain ⟨hk1, hk2⟩ := hk hp
    have hge := scaleUp_le_increment pending a.capacity (scaleUpFactor d state) hp
      (by omega) (by omega)
    rw [idealReplicas_of_pending d a.capacity state _ pending hp hc hf hL hk1 hk2] at hcl ⊢
    omega
  · rw [idealReplicas_of_not_pending d a.capacity state _ pending (by omega) hL hL1] at hcl ⊢
    omega

/-- Witness of C17: two pods, three zones, a periodic pass with nothing pending
and current count 7: the decided count is at least `1 + 1`. -/
theorem decided_ge_lastOrdinal_succ_witness :
    (1 : Int) + 1 ≤ decidedReplicas depsEx (asEx twoPodsThreeZones 7 []) twoPodsThreeZones
      true 0 7 :=
  decided_ge_lastOrdinal_succ depsEx (asEx twoPodsThreeZones 7 []) twoPodsThreeZones true 0 7
    (by decide) (by decide) (by decide) (by decide) (by decide)

/-- C18: for every pass with `pending > 0`, `Capacity ≥ 1` and
`scaleUpFactor ≥ 1`, without `int32` overflow, the pods added beyond the
existing ones can hold all pending replicas:
`(decided - (LastOrdinal + 1)) * Capacity ≥ pending`. -/
theorem added_pods_hold_pending (d : Deps) (a : autoscaler) (state : State)
    (attemptScaleDown : Bool) (pending replicas : Int)
    (hp : 0 < pending) (hc : 1 ≤ a.capacity) (hf : 1 ≤ scaleUpFactor d state)
    (hL : isInt32 state.LastOrdinal)
    (hk : ceilDiv (ceilDiv pending a.capacity) (scaleUpFactor d state) * scaleUpFactor d state
        ≤ MaxInt32)
    (hno : state.LastOrdinal + 1 +
        ceilDiv (ceilDiv pending a.capacity) (scaleUpFactor d state) * scaleUpFactor d state
        ≤ MaxInt32) :
    pending ≤ (decidedReplicas d a state attemptScaleDown pending replicas
      - (state.LastOrdinal + 1)) * a.capacity := by
  have hcl := le_clampReplicas attemptScaleDown
    (idealReplicas d a.capacity state (scaleUpFactor d state) pending) replicas
  have hid := idealReplicas_of_pending d a.capacity state _ pending hp hc hf hL hk hno
  rw [hid] at hcl
  obtain ⟨hm1, _⟩ := ceilDiv_bounds pending a.capacity (by omega)
  obtain ⟨_, hk2, _⟩ := ceilDiv_mul_least (ceilDiv pending a.capacity) (scaleUpFactor d state)
    (by omega)
  have hadd : ceilDiv pending a.capacity
      ≤ decidedReplicas d a state attemptScaleDown pending replicas
        - (state.LastOrdinal + 1) := by
    unfold decidedReplicas
    rw [hid]
    omega
  have hmul := Int.mul_le_mul_of_nonneg_right hadd (show (0 : Int) ≤ a.capacity by omega)
  calc pending ≤ a.capacity * ceilDiv pending a.capacity := hm1
    _ = ceilDiv pending a.capacity * a.capacity := by ring
    _ ≤ _ := hmul

/-- Witness of C18: two pods, three zones, capacity 10 and 25 pending replicas
on a triggered pass: the pods added hold at least 25 replicas. -/
theorem added_pods_hold_pending_witness :
    (25 : Int) ≤ (decidedReplicas depsEx (asEx twoPodsThreeZones 2 []) twoPodsThreeZones
      false 25 2 - (twoPodsThreeZones.LastOrdinal + 1)) * (asEx twoPodsThreeZones 2 []).capacity :=
  added_pods_hold_pending depsEx (asEx twoPodsThreeZones 2 []) twoPodsThreeZones false 25 2
    (by decide) (by decide) (by decide) (by decide) (by decide) (by decide)

/-- C19: on a pass that reaches compaction (snapshot and scale read, decided
count equal to the current one, periodic pass) `doautoscale` returns no error,
whatever the lister and the evictor return: a failure of `compact` is not the
result of the pass, and the condition `Start` polls reports the pass as done,
so it is not retried. -/
theorem compaction_failure_not_returned (d : Deps) (a : autoscaler) (state : State)
    (pending replicas : Int)
    (hs : a.stateAccessor = Except.ok state) (hr : a.getScale = Except.ok replicas)
    (heq : decidedReplicas d a state true pending replicas = replicas) :
    doautoscale d a true pending
      = (Event.mayCompact :: mayCompact d a state (scaleUpFactor d state), none) ∧
    pollCondition d a true pending = (true, none) := by
  have h : doautoscale d a true pending
      = (Event.mayCompact :: mayCompact d a state (scaleUpFactor d state), none) := by
    unfold doautoscale
    rw [hs, hr]
    simp only [heq, ne_eq, not_true_eq_false, if_false, if_true]
  refine ⟨h, ?_⟩
  unfold pollCondition
  rw [h]
  rfl

/-- Witness of C19: four pods with enough slack, current count 4, periodic
pass, failing lister: `compact` returns the lister's error, the pass returns
none. -/
theorem compaction_failure_not_returned_witness :
    (compact depsEx (asListerFails fourPodsSpread 4) fourPodsSpread 2).2
      = some "lister unavailable" ∧
    doautoscale depsEx (asListerFails fourPodsSpread 4) true 0
      = ([Event.mayCompact, Event.listVPods], none) ∧
    pollCondition depsEx (asListerFails fourPodsSpread 4) true 0 = (true, none) :=
  ⟨by decide,
   (compaction_failure_not_returned depsEx (asListerFails fourPodsSpread 4) fourPodsSpread 0 4
     rfl rfl (by decide)).1.trans (by decide),
   (compaction_failure_not_returned depsEx (asListerFails fourPodsSpread 4) fourPodsSpread 0 4
     rfl rfl (by decide)).2⟩

/-- C20: with `LastOrdinal < 1` (no pod or a single pod) `mayCompact` calls
neither the lister nor the evictor, under either policy, for every
`scaleUpFactor` and every free-capacity table. -/
theorem mayCompact_nothing_to_move (d : Deps) (a : autoscaler) (s : State)
    (scaleUpFactor : Int) (h : s.LastOrdinal < 1) :
    mayCompact d a s scaleUpFactor = [] := by
  unfold mayCompact
  rw [if_pos h]

/-- Witness of C20: a single, entirely free pod under the pack-tightest policy,
with a placement the lister would report. -/
theorem mayCompact_nothing_to_move_witness :
    mayCompact depsEx (asEx onePodFree 1 [vpodOnPod0]) onePodFree 1 = [] :=
  mayCompact_nothing_to_move depsEx (asEx onePodFree 1 [vpodOnPod0]) onePodFree 1 (by decide)

/-! ## The autoscaler: failed evictions -/

/-- The evictions of the specification are the trailing pairs, as events. -/
theorem trailingEvictions_eq_map (d : Deps) (s : State) (scaleUpFactor : Int)
    (vpods : List VPod) :
    trailingEvictions d s scaleUpFactor vpods
      = (trailingPairs d s scaleUpFactor vpods).map (fun x => Event.evict x.1 x.2) := by
  unfold trailingEvictions trailingPairs
  induction vpods with
  | nil => rfl
  | cons v vs ih =>
    rw [List.flatMap_cons, List.flatMap_cons, List.map_append, ih, List.map_map]
    rfl

/-- Evicting a concatenation: the second part is evicted only if the first part
succeeds. -/
theorem evictInOrder_append (a : autoscaler) :
    ∀ (l₁ l₂ : List (VPod × Placement)) (tr : List Event),
    evictInOrder a (l₁ ++ l₂) tr
      = match evictInOrder a l₁ tr with
        | (tr', some err) => (tr', some err)
        | (tr', none) => evictInOrder a l₂ tr' := by
  intro l₁
  induction l₁ with
  | nil => intro l₂ tr; rfl
  | cons x xs ih =>
    intro l₂ tr
    obtain ⟨v, p⟩ := x
    simp only [List.cons_append, evictInOrder]
    cases hev : a.evictor tr v p with
    | some err => rfl
    | none => exact ih l₂ _

/-- The loop of `compact` over the placements of one VPod evicts the VPod's
trailing-group placements in order and stops at the first failure. -/
theorem compactPlacements_eq (d : Deps) (a : autoscaler) (s : State) (scaleUpFactor : Int)
    (vpod : VPod) (hL : -1 ≤ s.LastOrdinal ∧ s.LastOrdinal ≤ MaxInt32)
    (hf : scaleUpFactor ≤ MaxInt32) :
    ∀ (placements : List Placement) (tr : List Event),
    compactPlacements d a s scaleUpFactor vpod placements tr
      = evictInOrder a
          ((placements.filter (inTrailingGroup d s scaleUpFactor)).map (fun p => (vpod, p)))
          tr := by
  intro placements
  induction placements with
  | nil => intro tr; rfl
  | cons p ps ih =>
    intro tr
    unfold compactPlacements
    rw [compactOrdinals_eq d a s scaleUpFactor vpod p tr hL hf]
    by_cases hin : inTrailingGroup d s scaleUpFactor p = true
    · rw [if_pos hin, List.filter_cons, if_pos hin, List.map_cons]
      simp only [evictInOrder]
      cases hev : a.evictor tr vpod p with
      | some err => rfl
      | none => exact ih _
    · rw [if_neg hin, List.filter_cons, if_neg hin]
      exact ih _

/-- The loop of `compact` over the VPods evicts the trailing pairs in order and
stops at the first failure. -/
theorem compactVPods_eq (d : Deps) (a : autoscaler) (s : State) (scaleUpFactor : Int)
    (hL : -1 ≤ s.LastOrdinal ∧ s.LastOrdinal ≤ MaxInt32) (hf : scaleUpFactor ≤ MaxInt32) :
    ∀ (vpods : List VPod) (tr : List Event),
    compactVPods d a s scaleUpFactor vpods tr
      = evictInOrder a (trailingPairs d s scaleUpFactor vpods) tr := by
  intro vpods
  induction vpods with
  | nil => intro tr; rfl
  | cons v vs ih =>
    intro tr
    unfold compactVPods trailingPairs
    rw [List.flatMap_cons, evictInOrder_append,
      compactPlacements_eq d a s scaleUpFactor v hL hf v.placements tr]
    rcases evictInOrder a
        ((v.placements.filter (inTrailingGroup d s scaleUpFactor)).map (fun p => (v, p))) tr
      with ⟨tr', _ | err⟩
    · exact ih tr'
    · rfl

/-- A failed run of `evictInOrder` stops right after the first failed
eviction, having evicted the pairs before it. -/
theorem evictInOrder_error (a : autoscaler) :
    ∀ (l : List (VPod × Placement)) (tr : List Event) (err : Err),
    (evictInOrder a l tr).2 = some err →
    ∃ pre v p post, l = pre ++ (v, p) :: post ∧
      (evictInOrder a l tr).1
        = tr ++ (pre.map (fun x => Event.evict x.1 x.2) ++ [Event.evict v p]) ∧
      a.evictor (tr ++ pre.map (fun x => Event.evict x.1 x.2)) v p = some err := by
  intro l
  induction l with
  | nil => intro tr err h; simp [evictInOrder] at h
  | cons x xs ih =>
    intro tr err h
    obtain ⟨v, p⟩ := x
    unfold evictInOrder at h ⊢
    cases hev : a.evictor tr v p with
    | some e =>
      simp only [hev] at h ⊢
      refine ⟨[], v, p, xs, rfl, by simp, ?_⟩
      simp only [List.map_nil, List.append_nil]
      rw [hev]
      exact congrArg some (Option.some.inj h)
    | none =>
      simp only [hev] at h ⊢
      obtain ⟨pre, v', p', post, hl, htr, hfail⟩ := ih _ err h
      refine ⟨(v, p) :: pre, v', p', post, by rw [hl]; rfl, ?_, ?_⟩
      · rw [htr]; simp
      · simpa using hfail

/-- When the pairs before a given one are evicted successfully and the eviction
of that pair fails, `evictInOrder` issues exactly these evictions and returns
the failure. -/
theorem evictInOrder_first_failure (a : autoscaler) :
    ∀ (pre : List (VPod × Placement)) (tr : List Event) (v : VPod) (p : Placement)
      (post : List (VPod × Placement)) (err : Err),
    (∀ pre₁ x pre₂, pre = pre₁ ++ x :: pre₂ →
      a.evictor (tr ++ pre₁.map (fun x => Event.evict x.1 x.2)) x.1 x.2 = none) →
    a.evictor (tr ++ pre.map (fun x => Event.evict x.1 x.2)) v p = some err →
    evictInOrder a (pre ++ (v, p) :: post) tr
      = (tr ++ (pre.map (fun x => Event.evict x.1 x.2) ++ [Event.evict v p]), some err) := by
  intro pre
  induction pre with
  | nil =>
    intro tr v p post err _ hfail
    simp only [List.map_nil, List.append_nil] at hfail
    simp only [List.nil_append, evictInOrder, hfail, List.map_nil]
  | cons x xs ih =>
    intro tr v p post err hok hfail
    obtain ⟨v', p'⟩ := x
    have h0 : a.evictor tr v' p' = none := by
      have := hok [] (v', p') xs rfl
      simpa using this
    have hok' : ∀ pre₁ y pre₂, xs = pre₁ ++ y :: pre₂ →
        a.evictor ((tr ++ [Event.evict v' p']) ++ pre₁.map (fun x => Event.evict x.1 x.2))
          y.1 y.2 = none := by
      intro pre₁ y pre₂ hxs
      have := hok ((v', p') :: pre₁) y pre₂ (by rw [hxs]; rfl)
      simpa using this
    have hfail' : a.evictor
        ((tr ++ [Event.evict v' p']) ++ xs.map (fun x => Event.evict x.1 x.2)) v p
        = some err := by
      simpa using hfail
    have hstep : evictInOrder a ((v', p') :: (xs ++ (v, p) :: post)) tr
        = evictInOrder a (xs ++ (v, p) :: post) (tr ++ [Event.evict v' p']) := by
      simp only [evictInOrder, h0]
    rw [List.cons_append, hstep, ih (tr ++ [Event.evict v' p']) v p post err hok' hfail']
    simp

/-- When `compact` returns an error after a successful lister call, its trace
is the lister call followed by a prefix of the trailing group's evictions that
ends with an eviction whose error is the one returned. -/
theorem compact_error_prefix (d : Deps) (a : autoscaler) (s : State)
    (scaleUpFactor : Int) (vpods : List VPod) (err : Err)
    (hL : -1 ≤ s.LastOrdinal ∧ s.LastOrdinal ≤ MaxInt32) (hf : scaleUpFactor ≤ MaxInt32)
    (hl : a.vpodLister = Except.ok vpods)
    (herr : (compact d a s scaleUpFactor).2 = some err) :
    ∃ pre v p post,
      trailingEvictions d s scaleUpFactor vpods = pre ++ Event.evict v p :: post ∧
      (compact d a s scaleUpFactor).1 = Event.listVPods :: (pre ++ [Event.evict v p]) ∧
      a.evictor (Event.listVPods :: pre) v p = some err := by
  have hc : compact d a s scaleUpFactor
      = evictInOrder a (trailingPairs d s scaleUpFactor vpods) [Event.listVPods] := by
    unfold compact
    rw [hl]
    exact compactVPods_eq d a s scaleUpFactor hL hf vpods _
  rw [hc] at herr ⊢
  obtain ⟨pre, v, p, post, hlist, htr, hfail⟩ := evictInOrder_error a _ _ err herr
  refine ⟨pre.map (fun x => Event.evict x.1 x.2), v, p,
    post.map (fun x => Event.evict x.1 x.2), ?_, ?_, ?_⟩
  · rw [trailingEvictions_eq_map, hlist]
    simp
  · rw [htr]; rfl
  · exact hfail

/-- C14: for every compaction in which an eviction fails - the lister
succeeds, the trailing group's (VPod, placement) pairs in lister then placement
order are `pre`, then `(v, p)`, then `post`, the evictions of `pre` succeed and
the eviction of `(v, p)` fails with `err` - `compact` returns `err`, its trace
is the lister call, the evictions of `pre` and the failed eviction, so that no
pair of `post` is passed to the evictor and the evictions issued before the
failure are those a fully successful run issues up to that point, none taken
back. -/
theorem compact_stops_at_failed_eviction (d : Deps) (a : autoscaler) (s : State)
    (scaleUpFactor : Int) (vpods : List VPod)
    (pre : List (VPod × Placement)) (v : VPod) (p : Placement)
    (post : List (VPod × Placement)) (err : Err)
    (hL : -1 ≤ s.LastOrdinal ∧ s.LastOrdinal ≤ MaxInt32) (hf : scaleUpFactor ≤ MaxInt32)
    (hl : a.vpodLister = Except.ok vpods)
    (hsplit : trailingPairs d s scaleUpFactor vpods = pre ++ (v, p) :: post)
    (hok : ∀ pre₁ x pre₂, pre = pre₁ ++ x :: pre₂ →
      a.evictor (Event.listVPods :: pre₁.map (fun x => Event.evict x.1 x.2)) x.1 x.2 = none)
    (hfail : a.evictor (Event.listVPods :: pre.map (fun x => Event.evict x.1 x.2)) v p
      = some err) :
    compact d a s scaleUpFactor
      = (Event.listVPods :: (pre.map (fun x => Event.evict x.1 x.2) ++ [Event.evict v p]),
          some err) ∧
    trailingEvictions d s scaleUpFactor vpods
      = pre.map (fun x => Event.evict x.1 x.2) ++
          Event.evict v p :: post.map (fun x => Event.evict x.1 x.2) := by
  constructor
  · unfold compact
    rw [hl]
    simp only []
    rw [compactVPods_eq d a s scaleUpFactor hL hf vpods _, hsplit]
    exact evictInOrder_first_failure a pre [Event.listVPods] v p post err hok hfail
  · rw [trailingEvictions_eq_map, hsplit]
    simp

/-- Witness of C14: three pods, `scaleUpFactor = 2`, the lister returns VPods
with placements on `pod-0` and `pod-2`, on `pod-1`, and on `pod-2`; the
eviction from `pod-1` fails: the eviction before it stays issued, the one
after it is never requested, and the error is returned. -/
theorem compact_stops_at_failed_eviction_witness :
    compact depsEx (asEvictFails threePodsPacked 3 [vpodA, vpodB, vpodD]) threePodsPacked 2
      = ([Event.listVPods, Event.evict vpodA ⟨"pod-2", 5⟩, Event.evict vpodB ⟨"pod-1", 5⟩],
          some "eviction refused") ∧
    trailingEvictions depsEx threePodsPacked 2 [vpodA, vpodB, vpodD]
      = [Event.evict vpodA ⟨"pod-2", 5⟩, Event.evict vpodB ⟨"pod-1", 5⟩,
          Event.evict vpodD ⟨"pod-2", 1⟩] :=
  compact_stops_at_failed_eviction depsEx (asEvictFails threePodsPacked 3 [vpodA, vpodB, vpodD])
    threePodsPacked 2 [vpodA, vpodB, vpodD] [(vpodA, ⟨"pod-2", 5⟩)] vpodB ⟨"pod-1", 5⟩
    [(vpodD, ⟨"pod-2", 1⟩)] "eviction refused" (by decide) (by decide) rfl (by decide)
    (by
      intro pre₁ x pre₂ h
      have hx : x ∈ [(vpodA, (⟨"pod-2", 5⟩ : Placement))] := by
        rw [h]; simp
      rw [List.mem_singleton] at hx
      rw [hx]
      rfl)
    rfl

/-! ## The even-spread score plugin: unknown keys -/

/-- An object with a key that does not match `MaxSkew` fails to decode. -/
theorem decodeFields_unmatched_key :
    ∀ (fields : List (String × JsonValue)) (maxSkew : Int),
    (∃ kv ∈ fields, matchesMaxSkew kv.1 = false) → decodeFields fields maxSkew = none := by
  intro fields
  induction fields with
  | nil => intro _ h; simp at h
  | cons kv rest ih =>
    intro maxSkew h
    obtain ⟨key, value⟩ := kv
    unfold decodeFields
    by_cases hm : matchesMaxSkew key = true
    · have hrest : ∃ kv ∈ rest, matchesMaxSkew kv.1 = false := by
        obtain ⟨kv', hmem, hkv⟩ := h
        rcases List.mem_cons.mp hmem with heq | hin
        · rw [heq] at hkv
          simp only at hkv
          rw [hm] at hkv
          exact absurd hkv (by simp)
        · exact ⟨kv', hin, hkv⟩
      rw [if_pos hm]
      cases value with
      | int n =>
        simp only []
        split_ifs
        · exact ih n hrest
        · rfl
      | null => exact ih maxSkew hrest
      | other => rfl
    · rw [if_neg hm]

/-- C13, as stated, fails: the document with the key `maxskew` contains a key
other than `MaxSkew`, yet it decodes (the key matches the field up to letter
case) and `Score` returns `Success`, here with score `MaxUint64 - 5` on the
counts `[5,4,3,4,5]`. -/
theorem Score_accepts_key_in_other_case :
    parseExample argsLowerCase = some (JsonDoc.object [("maxskew", JsonValue.int 2)]) ∧
    "maxskew" ≠ "MaxSkew" ∧
    decodeStrict parseExample argsLowerCase = some 2 ∧
    Score (decodeStrict parseExample) 10 (Args.str argsLowerCase) (spreadState 4 countsFive)
      ⟨"vpod-ns-0", "vpod-name-0"⟩ 1 = some (MaxUint64 - 5, NewStatus Code.Success []) := by
  decide

/-- C13, amended: for every argument string whose JSON object contains a key
that does not match `MaxSkew` even up to letter case, and for every state, key
and candidate ordinal, `Score` returns score 0 and `Unschedulable` with the
reason "invalid arguments". -/
theorem Score_rejects_unmatched_key (parse : String → Option JsonDoc) (fuel : Nat)
    (spreadArgs : String) (fields : List (String × JsonValue)) (states : State)
    (key : NamespacedName) (podID : Int)
    (hp : parse spreadArgs = some (JsonDoc.object fields))
    (hk : ∃ kv ∈ fields, matchesMaxSkew kv.1 = false) :
    Score (decodeStrict parse) fuel (Args.str spreadArgs) states key podID
      = some (0, NewStatus Code.Unschedulable ["invalid arguments"]) := by
  have hd : decodeStrict parse spreadArgs = none := by
    unfold decodeStrict
    rw [hp]
    exact decodeFields_unmatched_key fields 0 hk
  simp [Score, hd, ErrReasonInvalidArg]

/-- Witness of amended C13: the document with the key `MaxSkewness` of the
test "no vpods, no pods, bad arg". -/
theorem Score_rejects_unmatched_key_witness :
    Score (decodeStrict parseExample) 0 (Args.str argsMaxSkewness)
        (spreadState (-1) (fun _ => 0)) ⟨"", ""⟩ 0
      = some (0, NewStatus Code.Unschedulable ["invalid arguments"]) :=
  Score_rejects_unmatched_key parseExample 0 argsMaxSkewness [("MaxSkewness", JsonValue.int 2)]
    (spreadState (-1) (fun _ => 0)) ⟨"", ""⟩ 0 (by decide)
    ⟨("MaxSkewness", JsonValue.int 2), by decide, by decide⟩

/-! ## The control loop and its trigger -/

/-- A send keeps the channel reachable and appends its value to the values in
flight (buffered, then blocked). -/
theorem Autoscale_contents (t : Trigger) (pending : Int) (h : t.reachable) :
    (Autoscale t pending).1.reachable ∧
    (Autoscale t pending).1.buffer ++ (Autoscale t pending).1.sendq
      = t.buffer ++ t.sendq ++ [pending] := by
  unfold Trigger.reachable triggerCap at h
  obtain ⟨h1, h2⟩ := h
  unfold Autoscale Trigger.reachable triggerCap
  by_cases hlt : t.buffer.length < 1
  · have hq : t.sendq = [] := by
      by_contra hne
      have := h2 hne
      omega
    rw [if_pos hlt]
    refine ⟨⟨?_, ?_⟩, ?_⟩
    · simp only [List.length_append, List.length_singleton]; omega
    · intro hne; exact absurd hq hne
    · simp [hq]
  · rw [if_neg hlt]
    refine ⟨⟨h1, ?_⟩, ?_⟩
    · intro _; simp only; omega
    · simp

/-- The values in flight after a series of sends. -/
theorem sendAll_contents :
    ∀ (hints : List Int) (t : Trigger), t.reachable →
    (sendAll t hints).reachable ∧
    (sendAll t hints).buffer ++ (sendAll t hints).sendq = t.buffer ++ t.sendq ++ hints := by
  intro hints
  induction hints with
  | nil => intro t h; exact ⟨h, by simp [sendAll]⟩
  | cons p ps ih =>
    intro t h
    obtain ⟨hr, hc⟩ := Autoscale_contents t p h
    obtain ⟨hr', hc'⟩ := ih (Autoscale t p).1 hr
    have hs : sendAll t (p :: ps) = sendAll (Autoscale t p).1 ps := rfl
    rw [hs]
    refine ⟨hr', ?_⟩
    rw [hc', hc]
    simp

/-- The loop receives the values in flight oldest first. -/
theorem receiveAll_contents :
    ∀ (n : Nat) (t : Trigger), t.reachable →
    receiveAll n t = (t.buffer ++ t.sendq).take n := by
  intro n
  induction n with
  | zero => intro t _; simp [receiveAll]
  | succ n ih =>
    intro t h
    obtain ⟨buffer, sendq⟩ := t
    unfold Trigger.reachable triggerCap at h
    obtain ⟨h1, h2⟩ := h
    simp only at h1 h2
    unfold receiveAll receiveTrigger
    cases buffer with
    | nil =>
      have hq : sendq = [] := by
        by_contra hne
        have := h2 hne
        simp at this
      simp [hq]
    | cons v rest =>
      have hrest : rest = [] := by
        cases rest with
        | nil => rfl
        | cons _ _ => simp at h1
      subst hrest
      cases sendq with
      | nil =>
        simp only []
        rw [ih ⟨[], []⟩ (by simp [Trigger.reachable, triggerCap])]
        simp
      | cons w q =>
        simp only []
        rw [ih ⟨[] ++ [w], q⟩ (by simp [Trigger.reachable, triggerCap])]
        simp

/-- C16, as stated, fails: with the hint 1 unconsumed in the trigger,
`Autoscale(2)` leaves the buffer holding 1, has not returned (its send is
blocked), and the next triggered pass runs with `pending = 1`, not 2. -/
theorem autoscale_does_not_overwrite :
    Autoscale ⟨[], []⟩ 1 = (⟨[1], []⟩, true) ∧
    Autoscale ⟨[1], []⟩ 2 = (⟨[1], [2]⟩, false) ∧
    (triggeredPass depsEx (asEx twoPods 2 []) ⟨[1], [2]⟩).map (fun r => r.2.1) = some 1 := by
  decide

/-- C16, amended: when `Autoscale(p2)` is called while an earlier hint `p1` is
still unconsumed in the single-slot trigger, the slot keeps `p1` and the call
blocks; the loop's next triggered pass runs with `pending = p1`, after which
`p2` is in the slot (the blocked call completes); the following triggered pass
runs with `pending = p2`.  No hint is overwritten: whatever hints are sent to
an empty trigger, the triggered passes run with them in the order sent. -/
theorem autoscale_blocks_then_fifo (d : Deps) (a : autoscaler) (p1 p2 : Int) :
    Autoscale ⟨[p1], []⟩ p2 = (⟨[p1], [p2]⟩, false) ∧
    triggeredPass d a ⟨[p1], [p2]⟩ = some (doautoscale d a false p1, p1, ⟨[p2], []⟩) ∧
    triggeredPass d a ⟨[p2], []⟩ = some (doautoscale d a false p2, p2, ⟨[], []⟩) ∧
    ∀ hints : List Int, receiveAll hints.length (sendAll ⟨[], []⟩ hints) = hints := by
  refine ⟨?_, ?_, ?_, ?_⟩
  · simp [Autoscale, triggerCap]
  · simp [triggeredPass, receiveTrigger]
  · simp [triggeredPass, receiveTrigger]
  · intro hints
    have h0 : (⟨[], []⟩ : Trigger).reachable := by simp [Trigger.reachable, triggerCap]
    obtain ⟨hr, hc⟩ := sendAll_contents hints ⟨[], []⟩ h0
    rw [receiveAll_contents _ _ hr, hc]
    simp

/-! ## The even-spread score plugin: skew arithmetic and `MaxSkew` -/

/-- For non-negative `int32` counts the two subtractions of the skew do not
wrap. -/
theorem skew_subtraction_exact (currentReps otherReps : Int)
    (hc : 0 ≤ currentReps ∧ currentReps ≤ MaxInt32)
    (ho : 0 ≤ otherReps ∧ otherReps ≤ MaxInt32) :
    wrap32 (currentReps - 1) = currentReps - 1 ∧
    wrap32 (wrap32 (currentReps - 1) - otherReps) = currentReps - 1 - otherReps := by
  unfold MaxInt32 at *
  have h1 : wrap32 (currentReps - 1) = currentReps - 1 := by
    unfold wrap32; omega
  refine ⟨h1, ?_⟩
  rw [h1]
  unfold wrap32
  omega

/-- C21: with the non-negative `int32` counts `currentReps = 0` and
`otherReps = 2147483647` the subtractions give `-2147483648` without wrapping,
but the `int32` negation `skew * int32(-1)` wraps and leaves `-2147483648`:
the skew added to the score is negative, not the absolute difference
`2147483648`, and its `uint64` conversion is `2^64 - 2^31`. -/
theorem skew_negative_at_MinInt32 :
    wrap32 (wrap32 (0 - 1) - 2147483647) = -2147483648 ∧
    wrap32 (-2147483648 * (-1)) = -2147483648 ∧
    skewOf 0 2147483647 = -2147483648 ∧
    skewOf 0 2147483647 < 0 ∧
    ((0 : Int) - 1 - 2147483647).natAbs = 2147483648 ∧
    uint64OfInt32 (skewOf 0 2147483647) = 18446744071562067968 ∧
    scoreLoop (spreadState 1 countsExtreme) ⟨"vpod-ns-0", "vpod-name-0"⟩ 0 0 3 0 0
      = some 18446744071562067968 := by
  decide

/-- C22: the `MaxSkew` value does not influence the result: for every state,
key and candidate ordinal, `Score` returns the same score and status (and ends
or not alike) on any two argument strings that decode. -/
theorem Score_independent_of_MaxSkew (decode : String → Option Int) (fuel : Nat)
    (spreadArgs₁ spreadArgs₂ : String) (maxSkew₁ maxSkew₂ : Int) (states : State)
    (key : NamespacedName) (podID : Int)
    (h₁ : decode spreadArgs₁ = some maxSkew₁) (h₂ : decode spreadArgs₂ = some maxSkew₂) :
    Score decode fuel (Args.str spreadArgs₁) states key podID
      = Score decode fuel (Args.str spreadArgs₂) states key podID := by
  unfold Score
  simp only [h₁, h₂]

/-- Witness of C22: on the counts `[5,4,3,4,5]` and candidate ordinal 1 the
documents with `MaxSkew` 2 and with `MaxSkew` 0 both give `MaxUint64 - 5` and
`Success`, although three of the four skews exceed 0. -/
theorem Score_independent_of_MaxSkew_witness :
    decodeStrict parseSkews argsMaxSkew2 = some 2 ∧
    decodeStrict parseSkews argsMaxSkew0 = some 0 ∧
    Score (decodeStrict parseSkews) 10 (Args.str argsMaxSkew2) (spreadState 4 countsFive)
        ⟨"vpod-ns-0", "vpod-name-0"⟩ 1
      = Score (decodeStrict parseSkews) 10 (Args.str argsMaxSkew0) (spreadState 4 countsFive)
        ⟨"vpod-ns-0", "vpod-name-0"⟩ 1 ∧
    Score (decodeStrict parseSkews) 10 (Args.str argsMaxSkew0) (spreadState 4 countsFive)
        ⟨"vpod-ns-0", "vpod-name-0"⟩ 1 = some (MaxUint64 - 5, NewStatus Code.Success []) :=
  ⟨by decide, by decide,
   Score_independent_of_MaxSkew (decodeStrict parseSkews) 10 argsMaxSkew2 argsMaxSkew0 2 0
     (spreadState 4 countsFive) ⟨"vpod-ns-0", "vpod-name-0"⟩ 1 (by decide) (by decide),
   by decide⟩

/-! ## The autoscaler: the periodic pass and groups beyond the pool -/

/-- With `attemptScaleDown` set the clamp leaves the replica count as it is. -/
theorem clampReplicas_true (newreplicas replicas : Int) :
    clampReplicas true newreplicas replicas = newreplicas := by
  unfold clampReplicas
  simp

/-- C23, as stated, fails: with `LastOrdinal = 2147483647` and
`scaleUpFactor = 2` a periodic pass with `pending = 0` computes
`LastOrdinal + 1` in `int32`, which wraps below `LastOrdinal`, and decides
`-2147483647`, not `LastOrdinal + 1 = 2147483648`. -/
theorem periodic_pass_wraps_at_MaxInt32 :
    scaleUpFactor depsEx hugePool = 2 ∧
    hugePool.LastOrdinal + 1 = 2147483648 ∧
    decidedReplicas depsEx (asEx hugePool 5 []) hugePool true 0 5 = -2147483647 ∧
    periodicPass depsEx (asEx hugePool 5 []) = ([Event.updateScale (-2147483647)], none) := by
  decide

/-- C23, amended: on a scale-down-eligible pass with `pending ≤ 0`, for every
snapshot whose `LastOrdinal + 1` is an `int32`, the decided replica count is
exactly `LastOrdinal + 1`, whatever the current replica count and
`scaleUpFactor` are; when the current count differs from it the pass calls
`UpdateScale(LastOrdinal + 1)` and nothing else, and so does the periodic
iteration of the loop, which runs with `pending = 0`. -/
theorem periodic_pass_decides_lastOrdinal_succ (d : Deps) (a : autoscaler) (state : State)
    (pending replicas : Int)
    (hs : a.stateAccessor = Except.ok state) (hr : a.getScale = Except.ok replicas)
    (hp : pending ≤ 0) (hL : isInt32 state.LastOrdinal)
    (hL1 : state.LastOrdinal + 1 ≤ MaxInt32) :
    decidedReplicas d a state true pending replicas = state.LastOrdinal + 1 ∧
    (replicas ≠ state.LastOrdinal + 1 →
      (doautoscale d a true pending).1 = [Event.updateScale (state.LastOrdinal + 1)]) ∧
    (replicas ≠ state.LastOrdinal + 1 →
      (periodicPass d a).1 = [Event.updateScale (state.LastOrdinal + 1)]) := by
  have hdec : ∀ p : Int, p ≤ 0 →
      decidedReplicas d a state true p replicas = state.LastOrdinal + 1 := by
    intro p hp'
    unfold decidedReplicas
    rw [clampReplicas_true, idealReplicas_of_not_pending d a.capacity state _ p hp' hL hL1]
  have htrace : ∀ p : Int, p ≤ 0 → replicas ≠ state.LastOrdinal + 1 →
      (doautoscale d a true p).1 = [Event.updateScale (state.LastOrdinal + 1)] := by
    intro p hp' hne
    unfold doautoscale
    rw [hs, hr]
    simp only [hdec p hp']
    rw [if_pos (fun h => hne h.symm)]
    cases a.updateScale (state.LastOrdinal + 1) <;> rfl
  exact ⟨hdec pending hp, htrace pending hp, htrace 0 (le_refl 0)⟩

/-- Witness of amended C23: four pods, current count 6, periodic pass: the
decided count is 4 and `UpdateScale(4)` is the only call. -/
theorem periodic_pass_decides_lastOrdinal_succ_witness :
    decidedReplicas depsEx (asEx fourPodsSpread 6 [vpodC]) fourPodsSpread true 0 6 = 3 + 1 ∧
    (periodicPass depsEx (asEx fourPodsSpread 6 [vpodC])).1 = [Event.updateScale (3 + 1)] :=
  ⟨(periodic_pass_decides_lastOrdinal_succ depsEx (asEx fourPodsSpread 6 [vpodC]) fourPodsSpread
      0 6 rfl rfl (by decide) (by decide) (by decide)).1,
   (periodic_pass_decides_lastOrdinal_succ depsEx (asEx fourPodsSpread 6 [vpodC]) fourPodsSpread
      0 6 rfl rfl (by decide) (by decide) (by decide)).2.2 (by decide)⟩

/-- C24: two full pods of capacity 65536 under the spread policy with
`scaleUpFactor = 65536`, more than the two pods that exist: the `int32`
product `Capacity * scaleUpFactor` wraps to 0, the slack test `0 ≥ 0` passes,
and `mayCompact` evicts the placements on both pods, emptying the pool. -/
theorem mayCompact_product_wraps_empties_pool :
    scaleUpFactor depsEx poolOverflow = 65536 ∧
    poolOverflow.LastOrdinal + 1 < 65536 ∧
    1 ≤ poolOverflow.Capacity ∧
    Free poolOverflow 0 = 0 ∧ Free poolOverflow 1 = 0 ∧
    poolOverflow.Capacity * 65536 = 4294967296 ∧
    wrap32 (poolOverflow.Capacity * 65536) = 0 ∧
    mayCompact depsEx (asEx poolOverflow 2 [vpodFull]) poolOverflow 65536
      = [Event.listVPods, Event.evict vpodFull ⟨"pod-0", 65536⟩,
          Event.evict vpodFull ⟨"pod-1", 65536⟩] := by
  refine ⟨by decide, by decide, by decide, by decide, by decide, by decide, by decide, ?_⟩
  have hcompact := compact_of_success depsEx (asEx poolOverflow 2 [vpodFull]) poolOverflow 65536
    [vpodFull] (by decide) (by decide) rfl (fun _ _ _ _ _ _ => rfl)
  have hte : trailingEvictions depsEx poolOverflow 65536 [vpodFull]
      = [Event.evict vpodFull ⟨"pod-0", 65536⟩, Event.evict vpodFull ⟨"pod-1", 65536⟩] := by
    decide
  have hloop : trailingLoop poolOverflow 65536 (65536 : Int).toNat 0 (FreeCapacity poolOverflow)
      (wrap32 (poolOverflow.Capacity * 65536)) = (0, 0) := by decide
  unfold mayCompact
  rw [if_neg (by decide), if_neg (by decide), if_pos (by decide)]
  simp only [hloop, hcompact, hte]
  decide

/-- Where the product `Capacity * scaleUpFactor` does not overflow `int32`:
under the spread policy, for every snapshot with `Capacity ≥ 1` and
`0 ≤ Free ≤ Capacity` on every existing pod, if
`scaleUpFactor > LastOrdinal + 1` then `mayCompact` does not compact: neither
the lister nor the evictor is called. -/
theorem mayCompact_group_exceeds_pool (d : Deps) (a : autoscaler) (s : State)
    (scaleUpFactor : Int)
    (hpol : s.SchedulerPolicy ≠ SchedulerPolicyType.MAXFILLUP)
    (hsp : s.SchedPolicy.isSome = true)
    (hc : 1 ≤ s.Capacity)
    (hFree : ∀ i, 0 ≤ i → i ≤ s.LastOrdinal → 0 ≤ Free s i ∧ Free s i ≤ s.Capacity)
    (hg : s.LastOrdinal + 1 < scaleUpFactor)
    (hL : s.LastOrdinal ≤ MaxInt32) (hf : scaleUpFactor ≤ MaxInt32)
    (hCf : s.Capacity * scaleUpFactor ≤ MaxInt32) :
    mayCompact d a s scaleUpFactor = [] := by
  by_cases h1 : s.LastOrdinal < 1
  · unfold mayCompact
    rw [if_pos h1]
  · have hlt : s.Capacity * (s.LastOrdinal + 1) < s.Capacity * scaleUpFactor :=
      Int.mul_lt_mul_of_pos_left hg (by omega)
    have hCap : s.Capacity * (s.LastOrdinal + 1) ≤ MaxInt32 := by omega
    obtain ⟨_, _, hfc⟩ := FreeCapacity_bounds s hFree (by omega) hCap
    rw [mayCompact_spread_cond d a s scaleUpFactor hpol hsp ⟨by omega, hL⟩ ⟨by omega, hf⟩ hFree
      hCap hCf]
    rw [if_neg (by omega)]

/-- Two entirely free pods of capacity 10 with `scaleUpFactor = 3`: nothing is
called, although a placement is on `pod-1`. -/
theorem mayCompact_group_exceeds_pool_example :
    mayCompact depsEx (asEx twoPodsFree 2 [vpodOnPod1]) twoPodsFree 3 = [] :=
  mayCompact_group_exceeds_pool depsEx (asEx twoPodsFree 2 [vpodOnPod1]) twoPodsFree 3
    (by decide) rfl (by decide)
    (by intro i h0 h1; unfold twoPodsFree stEx Free at *; simp only at *; omega)
    (by decide) (by decide) (by decide) (by decide)

end EventingKafka
